import Mathlib

/-
  Verification of the note-storage layer of the link-notes application
  (src/services/FileSystemService.ts and the filename-derivation helpers of
  src/app/editor.tsx) against its natural-language specification.

  The TypeScript service is shallowly embedded: the mutable singleton state
  becomes an explicit `ServiceState`, each async method becomes a function in a
  state-plus-exception monad `M`, JavaScript exceptions become `Except.error`,
  and every backend call (directory listing, file read/write/delete, stat,
  preference read, mkdir) is recorded in an event trace so that claims about
  "no second backend call" are expressible.  Timestamps are `Nat`
  milliseconds; `Date.now()` reads the `now` field of the state.  JavaScript
  string truthiness (empty string is falsy) is embedded explicitly at each
  use site.
-/

namespace LinkNotes

/-! ## JavaScript-style string helpers (over `List Char`) -/

/-- Character set removed by the sanitizer regex `[<>:"/\\|?*]` in
`sanitizeFilename` (editor.tsx). -/
def jsInvalidChar (c : Char) : Bool :=
  c = '<' || c = '>' || c = ':' || c = '"' || c = '/' || c = '\\' ||
  c = '|' || c = '?' || c = '*'

/-- JavaScript `\s` whitespace class (the characters relevant to this code
base: space, tab, newline, carriage return, form feed, vertical tab). -/
def jsWs (c : Char) : Bool :=
  c = ' ' || c = '\t' || c = '\n' || c = '\r' || c = '\x0c' || c = '\x0b'

/-- Fuel-driven core of `replace(/\s+/g, ' ')`: each maximal whitespace run
becomes a single space.  Fuel equal to the list length suffices because each
step consumes at least one character. -/
def collapseWsAux : Nat → List Char → List Char
  | 0, _ => []
  | _, [] => []
  | fuel + 1, c :: cs =>
      if jsWs c then ' ' :: collapseWsAux fuel (cs.dropWhile jsWs)
      else c :: collapseWsAux fuel cs

/-- `replace(/\s+/g, ' ')`. -/
def collapseWs (cs : List Char) : List Char :=
  collapseWsAux cs.length cs

/-- `replace(/\.+$/, '')`: drop trailing dots. -/
def dropTrailingDots (cs : List Char) : List Char :=
  (cs.reverse.dropWhile (fun c => c = '.')).reverse

/-- JavaScript `String.prototype.trim`. -/
def jsTrimChars (cs : List Char) : List Char :=
  ((cs.dropWhile jsWs).reverse.dropWhile jsWs).reverse

/-- JavaScript `String.prototype.trim` on `String`. -/
def jsTrim (s : String) : String :=
  String.mk (jsTrimChars s.toList)

/-- JavaScript `a.startsWith(p)`. -/
def jsStartsWith (s pre : String) : Bool :=
  pre.toList.isPrefixOf s.toList

/-- JavaScript `a.endsWith(p)` (case-sensitive, as in the source). -/
def jsEndsWith (s suf : String) : Bool :=
  suf.toList.reverse.isPrefixOf s.toList.reverse

/-- JavaScript `s.includes(c)` for a single character. -/
def jsContainsChar (s : String) (c : Char) : Bool :=
  s.toList.contains c

/-- JavaScript `s.substring(0, n)` (a prefix of at most `n` characters). -/
def jsTake (s : String) (n : Nat) : String :=
  String.mk (s.toList.take n)

/-- JavaScript `s.split(sep)` for a one-character separator; keeps empty
segments, e.g. `"R/".split('/') = ["R", ""]`. -/
def splitCharsAux (sep : Char) : List Char → List (List Char)
  | [] => [[]]
  | c :: cs =>
      match splitCharsAux sep cs with
      | [] => if c = sep then [[], []] else [[c]]
      | g :: gs => if c = sep then [] :: g :: gs else (c :: g) :: gs

/-- JavaScript `s.split(sep)` on `String`. -/
def jsSplit (s : String) (sep : Char) : List String :=
  (splitCharsAux sep s.toList).map String.mk

/-- JavaScript `parts.join(sep)` for a one-character separator. -/
def jsJoin (parts : List String) (sep : String) : String :=
  match parts with
  | [] => ""
  | p :: ps => ps.foldl (fun acc q => acc ++ sep ++ q) p

/-! ## Data model (src/types/FileSystemItem.ts, runtime note objects) -/

/-- A note as constructed at runtime (editor.tsx builds notes with exactly
these fields; the stale `id`/`title` fields of types/Note.ts never exist on
runtime objects). -/
structure Note where
  filename : String
  content : String
  createdAt : Nat
  updatedAt : Nat
  filePath : String
deriving DecidableEq, Repr

/-- NotePreview as produced by the listing paths. -/
structure NotePreview where
  filename : String
  preview : String
  createdAt : Nat
  updatedAt : Nat
  filePath : String
deriving DecidableEq, Repr

/-- FolderItem (types/FileSystemItem.ts); the literal `type: 'folder'` tag
carries no information and is dropped. -/
structure FolderItem where
  name : String
  path : String
  createdAt : Nat
  updatedAt : Nat
deriving DecidableEq, Repr

/-- NoteItem (types/FileSystemItem.ts); the `type: 'note'` tag is dropped. -/
structure NoteItem where
  filename : String
  preview : String
  createdAt : Nat
  updatedAt : Nat
  filePath : String
deriving DecidableEq, Repr

/-- DirectoryContents (types/FileSystemItem.ts). -/
structure DirectoryContents where
  folders : List FolderItem
  notes : List NoteItem
  currentPath : String
  parentPath : Option String
deriving DecidableEq, Repr

/-! ## Backend stores -/

/-- An entry of the serialized `notes` array in browser localStorage.  The
`id` field is optional because `saveWebNote` spreads a runtime note object,
which carries no `id`; the ISO date strings are modeled as the underlying
millisecond values (ISO serialization round-trips). -/
structure WebNote where
  id : Option String
  filename : String
  content : String
  createdAt : Nat
  updatedAt : Nat
  filePath : String
deriving DecidableEq, Repr

/-- An entry returned by the SAF `listFiles` operation
(react-native-saf-x): name, uri, file/directory tag, lastModified. -/
structure SAFFile where
  name : String
  uri : String
  isDir : Bool
  lastModified : Nat
deriving DecidableEq, Repr

/-- The path-based backend (expo-file-system).  `files` maps a full file path
to content and modification time; `dirPaths` lists existing directory paths
(with trailing slash) and their modification times; `listings` maps a
directory path to the entry names `readDirectoryAsync` returns.  `failWrites`
and `failDeletes` inject genuine backend failures for the named paths. -/
structure PathFS where
  files : List (String × String × Nat)
  dirPaths : List (String × Nat)
  listings : List (String × List String)
  failWrites : List String
  failDeletes : List String
deriving DecidableEq, Repr

/-- The document-provider backend (react-native-saf-x).  `listings` maps a
directory uri to its entries; `contents` maps a file uri to its text;
`stats` maps a uri to its lastModified time. -/
structure SAFFS where
  listings : List (String × List SAFFile)
  contents : List (String × String)
  stats : List (String × Nat)
  failWrites : List String
  failDeletes : List String
deriving DecidableEq, Repr

/-- AsyncStorage: key-value items plus a flag injecting a read failure
(timeout / rejection) for `getItem`. -/
structure PrefStore where
  items : List (String × String)
  failGet : Bool
deriving DecidableEq, Repr

/-- Platform.OS as far as this service distinguishes it. -/
inductive Plat where
  | web
  | android
  | ios
deriving DecidableEq, Repr

/-- A backend call, recorded in the trace in call order. -/
inductive Event where
  | listDir (path : String)
  | readF (path : String)
  | writeF (path : String)
  | deleteF (path : String)
  | statF (path : String)
  | mkdir (path : String)
  | prefGet (key : String)
deriving DecidableEq, Repr

/-- The full state of the FileSystemService singleton plus its environment. -/
structure ServiceState where
  platform : Plat
  notesDirectory : String
  customDirectory : Option String
  currentDirectory : Option String
  notesCache : List (String × List NotePreview)
  noteContentCache : List (String × Note)
  directoryPreferenceCache : Option (Option String)
  lastCacheUpdate : Nat
  now : Nat
  fs : PathFS
  saf : SAFFS
  web : List WebNote
  prefs : PrefStore
  trace : List Event
deriving DecidableEq, Repr

/-! ## The state-plus-exception monad -/

/-- Computations of the service: state threading plus JavaScript exceptions.
State mutations made before a throw persist, as in the source. -/
def M (α : Type) : Type :=
  ServiceState → Except String α × ServiceState

/-- `pure` of `M`. -/
def pureM {α : Type} (a : α) : M α :=
  fun s => (Except.ok a, s)

/-- `bind` of `M`: sequencing with exception short-circuit. -/
def bindM {α β : Type} (x : M α) (f : α → M β) : M β :=
  fun s =>
    match x s with
    | (Except.ok a, s') => f a s'
    | (Except.error e, s') => (Except.error e, s')

instance : Monad M where
  pure := pureM
  bind := bindM

/-- Throw a JavaScript exception. -/
def throwM {α : Type} (e : String) : M α :=
  fun s => (Except.error e, s)

/-- `try ... catch` — the handler sees the state as mutated so far. -/
def tryCatchM {α : Type} (x : M α) (h : String → M α) : M α :=
  fun s =>
    match x s with
    | (Except.ok a, s') => (Except.ok a, s')
    | (Except.error e, s') => h e s'

/-- Read the state. -/
def getS : M ServiceState :=
  fun s => (Except.ok s, s)

/-- Replace the state. -/
def modifyS (f : ServiceState → ServiceState) : M Unit :=
  fun s => (Except.ok (), f s)

/-- Append a backend call to the trace. -/
def traceEv (e : Event) : M Unit :=
  modifyS (fun s => { s with trace := s.trace ++ [e] })

/-! ## Association-list helpers -/

/-- First value bound to `k`, if any. -/
def alookup {α : Type} (k : String) : List (String × α) → Option α
  | [] => none
  | (k', v) :: rest => if k' = k then some v else alookup k rest

/-- Bind `k` to `v`, replacing an existing binding or appending. -/
def aset {α : Type} (k : String) (v : α) : List (String × α) → List (String × α)
  | [] => [(k, v)]
  | (k', v') :: rest => if k' = k then (k, v) :: rest else (k', v') :: aset k v rest

/-- Remove every binding of `k`. -/
def aremove {α : Type} (k : String) (l : List (String × α)) : List (String × α) :=
  l.filter (fun kv => kv.1 ≠ k)

/-! ## Path-based backend primitives (expo-file-system) -/

/-- When a file appears at `path`, register its entry name in the listing of
every directory whose path is a proper prefix of `path` with a slash-free
remainder (in this model, the file's parent directory). -/
def addNameToListings (path : String) (ls : List (String × List String)) :
    List (String × List String) :=
  ls.map (fun dl =>
    let rest := String.mk (path.toList.drop dl.1.toList.length)
    if jsStartsWith path dl.1 ∧ rest ≠ "" ∧ ¬ jsContainsChar rest '/' ∧
        ¬ dl.2.contains rest then
      (dl.1, dl.2 ++ [rest])
    else dl)

/-- Remove the entry name of `path` from its parent directory's listing. -/
def removeNameFromListings (path : String) (ls : List (String × List String)) :
    List (String × List String) :=
  ls.map (fun dl =>
    let rest := String.mk (path.toList.drop dl.1.toList.length)
    if jsStartsWith path dl.1 ∧ rest ≠ "" ∧ ¬ jsContainsChar rest '/' then
      (dl.1, dl.2.filter (fun n => n ≠ rest))
    else dl)

/-- Result shape of `FileSystem.getInfoAsync` (never throws for a missing
path; reports existence, directory-ness and modification time). -/
structure FInfo where
  exists' : Bool
  isDirectory : Bool
  modificationTime : Option Nat
deriving DecidableEq, Repr

/-- `FileSystem.getInfoAsync`. -/
def getInfoAsync (path : String) : M FInfo := do
  traceEv (Event.statF path)
  let s ← getS
  match alookup path s.fs.files with
  | some cm => pure ⟨true, false, some cm.2⟩
  | none =>
      match alookup path s.fs.dirPaths with
      | some m => pure ⟨true, true, some m⟩
      | none =>
          match alookup (path ++ "/") s.fs.dirPaths with
          | some m => pure ⟨true, true, some m⟩
          | none => pure ⟨false, false, none⟩

/-- `FileSystem.readDirectoryAsync`: throws when the directory is missing. -/
def readDirectoryAsync (dir : String) : M (List String) := do
  traceEv (Event.listDir dir)
  let s ← getS
  match alookup dir s.fs.listings with
  | some names => pure names
  | none => throwM "ENOENT: directory not found"

/-- `FileSystem.readAsStringAsync`: throws when the file is missing. -/
def readAsStringAsync (path : String) : M String := do
  traceEv (Event.readF path)
  let s ← getS
  match alookup path s.fs.files with
  | some cm => pure cm.1
  | none => throwM "ENOENT: file not found"

/-- `FileSystem.writeAsStringAsync`: fails only for fault-injected paths;
on success stores the content with the current time as modification time and
registers the entry in its directory's listing. -/
def writeAsStringAsync (path content : String) : M Unit := do
  traceEv (Event.writeF path)
  let s ← getS
  if s.fs.failWrites.contains path then throwM "EIO: write failed"
  else
    modifyS (fun s => { s with fs :=
      { s.fs with
        files := aset path (content, s.now) s.fs.files,
        listings := addNameToListings path s.fs.listings } })

/-- `FileSystem.deleteAsync`: without `idempotent` it throws for a missing
file; fault-injected paths throw a genuine delete failure. -/
def deleteAsync (path : String) (idempotent : Bool) : M Unit := do
  traceEv (Event.deleteF path)
  let s ← getS
  if s.fs.failDeletes.contains path then throwM "EPERM: delete failed"
  else
    match alookup path s.fs.files with
    | some _ =>
        modifyS (fun s => { s with fs :=
          { s.fs with
            files := aremove path s.fs.files,
            listings := removeNameFromListings path s.fs.listings } })
    | none => if idempotent then pure () else throwM "ENOENT: file not found"

/-- `FileSystem.makeDirectoryAsync` (directory creation is modeled as always
succeeding: it records the directory and an empty listing). -/
def makeDirectoryAsync (dir : String) : M Unit := do
  traceEv (Event.mkdir dir)
  modifyS (fun s => { s with fs :=
    { s.fs with
      dirPaths := aset dir s.now s.fs.dirPaths,
      listings := aset dir [] s.fs.listings } })

/-! ## Document-provider backend primitives (react-native-saf-x) -/

/-- SAF `listFiles`: throws when the tree uri is unknown (permission revoked
or missing). -/
def safListFiles (uri : String) : M (List SAFFile) := do
  traceEv (Event.listDir uri)
  let s ← getS
  match alookup uri s.saf.listings with
  | some entries => pure entries
  | none => throwM "SAF: cannot list"

/-- SAF `readFile`: throws when there is no readable content at the uri. -/
def safReadFile (uri : String) : M String := do
  traceEv (Event.readF uri)
  let s ← getS
  match alookup uri s.saf.contents with
  | some c => pure c
  | none => throwM "SAF: cannot read"

/-- SAF `stat`: throws when the uri is unknown. -/
def safStat (uri : String) : M Nat := do
  traceEv (Event.statF uri)
  let s ← getS
  match alookup uri s.saf.stats with
  | some m => pure m
  | none => throwM "SAF: cannot stat"

/-- SAF `writeFile`: fails only for fault-injected uris; on success stores
content and stamps lastModified with the current time. -/
def safWriteFile (uri content : String) : M Unit := do
  traceEv (Event.writeF uri)
  let s ← getS
  if s.saf.failWrites.contains uri then throwM "SAF: write failed"
  else
    modifyS (fun s => { s with saf :=
      { s.saf with
        contents := aset uri content s.saf.contents,
        stats := aset uri s.now s.saf.stats } })

/-- SAF `unlink`: throws for fault-injected uris and for missing uris. -/
def safUnlink (uri : String) : M Unit := do
  traceEv (Event.deleteF uri)
  let s ← getS
  if s.saf.failDeletes.contains uri then throwM "SAF: delete failed"
  else
    match alookup uri s.saf.contents with
    | some _ =>
        modifyS (fun s => { s with saf :=
          { s.saf with
            contents := aremove uri s.saf.contents,
            stats := aremove uri s.saf.stats } })
    | none => throwM "SAF: unlink target missing"

/-! ## AsyncStorage primitive -/

/-- `asyncStorageWithTimeout.getItem`: rejects when the injected failure flag
is set (timeout or storage failure), otherwise returns the stored value or
null. -/
def asyncGetItem (key : String) : M (Option String) := do
  traceEv (Event.prefGet key)
  let s ← getS
  if s.prefs.failGet then throwM "AsyncStorage.getItem timeout"
  else pure (alookup key s.prefs.items)

/-! ## FileSystemService: pure pieces -/

/-- `getNotesDirectory`: `this.customDirectory || this.notesDirectory`
(JavaScript truthiness: the empty string falls back to the default). -/
def getNotesDirectory (s : ServiceState) : String :=
  match s.customDirectory with
  | some d => if d ≠ "" then d else s.notesDirectory
  | none => s.notesDirectory

/-- `getCurrentDirectory`: `this.currentDirectory || this.getNotesDirectory()`. -/
def getCurrentDirectory (s : ServiceState) : String :=
  match s.currentDirectory with
  | some d => if d ≠ "" then d else getNotesDirectory s
  | none => getNotesDirectory s

/-- `cacheValidityDuration = 5 * 60 * 1000` milliseconds. -/
def cacheValidityDuration : Nat := 5 * 60 * 1000

/-- `isCacheValid`: `Date.now() - lastCacheUpdate < cacheValidityDuration`
(truncated subtraction matches the JavaScript comparison outcome). -/
def isCacheValid (s : ServiceState) : Bool :=
  s.now - s.lastCacheUpdate < cacheValidityDuration

/-- `clearCache`: clears both caches and resets the fill timestamp. -/
def clearCacheFn (s : ServiceState) : ServiceState :=
  { s with notesCache := [], noteContentCache := [], lastCacheUpdate := 0 }

/-- Target-directory resolution, duplicated verbatim in `getNote`,
`saveNote` and `deleteNote`: `folderPath && folderPath.trim() !== ''` selects
the folder branch (note `jsTrim p ≠ ""` already implies `p ≠ ""`). -/
def resolveTargetDir (rootDir : String) (folderPath : Option String) : String :=
  match folderPath with
  | some p =>
      if jsTrim p ≠ "" then
        if jsStartsWith rootDir "content://" then rootDir ++ "/" ++ p
        else rootDir ++ p ++ "/"
      else rootDir
  | none => rootDir

/-- `file.name.replace('.md', '')`: removes the first occurrence of the
substring `.md` (JavaScript `replace` with a string pattern). -/
def replaceFirstMd : List Char → List Char
  | [] => []
  | c :: rest =>
      if ['.', 'm', 'd'].isPrefixOf (c :: rest) then rest.drop 2
      else c :: replaceFirstMd rest

/-- `replace('.md', '')` on `String`. -/
def stripMd (s : String) : String :=
  String.mk (replaceFirstMd s.toList)

/-- `getParentPath(currentPath, rootPath)` (FileSystemService.ts). -/
def getParentPath (currentPath rootPath : String) : Option String :=
  if currentPath = rootPath then none
  else if jsStartsWith currentPath "content://" then
    let parts := jsSplit currentPath '/'
    if parts.length > 4 then some (jsJoin parts.dropLast "/")
    else some rootPath
  else
    let parts := jsSplit currentPath '/'
    if parts.length > 1 then
      let parentPath := jsJoin parts.dropLast "/" ++ "/"
      if parentPath.toList.length ≥ rootPath.toList.length then some parentPath
      else none
    else none

/-- Stable insertion step for the listing sorts. -/
def insertBy {α : Type} (le : α → α → Bool) (a : α) : List α → List α
  | [] => [a]
  | b :: rest => if le a b then a :: b :: rest else b :: insertBy le a rest

/-- Stable sort modeling JavaScript `Array.prototype.sort` with a total
comparator. -/
def sortBy {α : Type} (le : α → α → Bool) : List α → List α
  | [] => []
  | a :: rest => insertBy le a (sortBy le rest)

/-- Folder comparator `a.name.localeCompare(b.name)`, modeled as code-point
order (the locale-sensitivity of `localeCompare` is irrelevant to the claims,
which never depend on the relative order of two folders). -/
def folderLe (a b : FolderItem) : Bool :=
  decide (a.name ≤ b.name)

/-- Note comparator `b.updatedAt - a.updatedAt` (newest first). -/
def noteItemLe (a b : NoteItem) : Bool :=
  decide (b.updatedAt ≤ a.updatedAt)

/-- Preview comparator `b.updatedAt - a.updatedAt` (newest first). -/
def previewLe (a b : NotePreview) : Bool :=
  decide (b.updatedAt ≤ a.updatedAt)

/-- `buildDirectoryContents`. -/
def buildDirectoryContents (folders : List FolderItem) (notes : List NoteItem)
    (currentPath rootPath : String) : DirectoryContents :=
  { folders := sortBy folderLe folders,
    notes := sortBy noteItemLe notes,
    currentPath := currentPath,
    parentPath := getParentPath currentPath rootPath }

/-- `buildEmptyDirectoryContents`. -/
def buildEmptyDirectoryContents (currentPath rootPath : String) : DirectoryContents :=
  { folders := [], notes := [], currentPath := currentPath,
    parentPath := getParentPath currentPath rootPath }

/-- `separateFoldersAndMarkdownFiles` (SAF listing partition): non-hidden
directories become folders; every other entry whose name ends in `.md`
(including hidden ones) goes to the Markdown partition; the rest is
dropped. -/
def separateFoldersAndMarkdownFiles (files : List SAFFile) :
    List FolderItem × List SAFFile :=
  match files with
  | [] => ([], [])
  | f :: rest =>
      let r := separateFoldersAndMarkdownFiles rest
      if f.isDir ∧ ¬ jsStartsWith f.name "." then
        (⟨f.name, f.uri, f.lastModified, f.lastModified⟩ :: r.1, r.2)
      else if jsEndsWith f.name ".md" then (r.1, f :: r.2)
      else r

/-! ## FileSystemService: stateful methods -/

/-- Sequential effect map; the source issues these reads through
`Promise.all`, a read-only fan-out whose results are collected in input
order, which this sequential model preserves. -/
def mapM' {α β : Type} (f : α → M β) : List α → M (List β)
  | [] => pure []
  | a :: as => do
      let b ← f a
      let bs ← mapM' f as
      pure (b :: bs)

/-- `loadDirectoryPreference` (the root-preference loader): memoizes its
first outcome — success, null, or failure — in `directoryPreferenceCache`
and performs no storage read once the cache is populated. -/
def loadDirectoryPreference : M Unit := do
  let s ← getS
  match s.directoryPreferenceCache with
  | some cached =>
      match cached with
      | some d => modifyS (fun s => { s with customDirectory := some d })
      | none => pure ()
  | none =>
      if s.platform = Plat.web then
        modifyS (fun s => { s with directoryPreferenceCache := some none })
      else
        tryCatchM
          (do
            let v ← asyncGetItem "notes_directory_preference"
            match v with
            | some dir =>
                if dir ≠ "" then
                  modifyS (fun s =>
                    { s with customDirectory := some dir,
                             directoryPreferenceCache := some (some dir) })
                else
                  modifyS (fun s => { s with directoryPreferenceCache := some none })
            | none => modifyS (fun s => { s with directoryPreferenceCache := some none }))
          (fun _ => modifyS (fun s => { s with directoryPreferenceCache := some none }))

/-- `ensureDirectoryExists`: creates the root on the path-based backend when
absent; a no-op on web and on SAF roots. -/
def ensureDirectoryExists : M Unit := do
  let s ← getS
  if s.platform = Plat.web then pure ()
  else
    let currentDir := getNotesDirectory s
    if jsStartsWith currentDir "content://" then pure ()
    else do
      let info ← getInfoAsync currentDir
      if ¬ info.exists' then makeDirectoryAsync currentDir else pure ()

/-- `getWebNote` (flat-store read): scans the stored array for an entry whose
`id` equals the requested identifier — saved entries carry no `id`. -/
def getWebNote (store : List WebNote) (id : String) : Option Note :=
  match store.find? (fun n => n.id = some id) with
  | some n => some ⟨n.filename, n.content, n.createdAt, n.updatedAt, n.filePath⟩
  | none => none

/-- `getNote(filename, folderPath?)`. -/
def getNote (filename : String) (folderPath : Option String) : M (Option Note) := do
  let s ← getS
  if s.platform = Plat.web then pure (getWebNote s.web filename)
  else
    let cacheKey := "note_" ++ filename ++ "_" ++
      (match folderPath with
       | some p => if p ≠ "" then p else "root"
       | none => "root")
    if isCacheValid s ∧ (alookup cacheKey s.noteContentCache).isSome then
      pure (alookup cacheKey s.noteContentCache)
    else
      tryCatchM
        (do
          let rootDir := getNotesDirectory s
          let targetDir := resolveTargetDir rootDir folderPath
          if jsStartsWith targetDir "content://" then do
            let fileUri := targetDir ++ "/" ++ filename ++ ".md"
            let content ← safReadFile fileUri
            let m ← safStat fileUri
            let note : Note := ⟨filename, content, m, m, fileUri⟩
            modifyS (fun s =>
              { s with noteContentCache := aset cacheKey note s.noteContentCache })
            pure (some note)
          else do
            let filePath := targetDir ++ filename ++ ".md"
            let content ← readAsStringAsync filePath
            let info ← getInfoAsync filePath
            let modTime :=
              match info.modificationTime with
              | some m => if info.exists' then m else s.now
              | none => s.now
            let note : Note := ⟨filename, content, modTime, modTime, filePath⟩
            modifyS (fun s =>
              { s with noteContentCache := aset cacheKey note s.noteContentCache })
            pure (some note))
        (fun _ => pure none)

/-- Replace the first stored entry with this filename, else push at the end
(`findIndex` + assignment / `push` in `saveWebNote`). -/
def webUpsert (nd : WebNote) : List WebNote → List WebNote
  | [] => [nd]
  | n :: rest => if n.filename = nd.filename then nd :: rest else n :: webUpsert nd rest

/-- `saveWebNote`: stores `{...note, createdAt: note.createdAt, updatedAt:
now}` keyed by filename; the spread of a runtime note carries no `id`. -/
def saveWebNote (note : Note) : M Unit := do
  let s ← getS
  let noteData : WebNote :=
    ⟨none, note.filename, note.content, note.createdAt, s.now, note.filePath⟩
  modifyS (fun s => { s with web := webUpsert noteData s.web })

/-- `deleteWebNote`: keeps entries whose `id` differs from the argument. -/
def deleteWebNote (id : String) : M Unit :=
  modifyS (fun s => { s with web := s.web.filter (fun n => n.id ≠ some id) })

/-- `deleteNote(id, folderPath?)`: the path-backend delete is issued without
the idempotent option; the catch block only logs and rethrows. -/
def deleteNote (id : String) (folderPath : Option String) : M Unit := do
  let s ← getS
  if s.platform = Plat.web then deleteWebNote id
  else
    let rootDir := getNotesDirectory s
    let targetDir := resolveTargetDir rootDir folderPath
    if jsStartsWith targetDir "content://" then do
      safUnlink (targetDir ++ "/" ++ id ++ ".md")
      modifyS clearCacheFn
    else do
      deleteAsync (targetDir ++ id ++ ".md") false
      modifyS clearCacheFn

/-- `saveNote(note, oldFilename?, folderPath?)`: on web it defers entirely to
`saveWebNote` (ignoring `oldFilename`); otherwise it ensures the root exists,
attempts — swallowing failure — to delete the old file when `oldFilename` is
truthy and differs, writes the content, and clears the cache; the catch block
only logs and rethrows the write failure. -/
def saveNote (note : Note) (oldFilename : Option String) (folderPath : Option String) :
    M Unit := do
  let s ← getS
  if s.platform = Plat.web then saveWebNote note
  else do
    ensureDirectoryExists
    let s ← getS
    let rootDir := getNotesDirectory s
    let targetDir := resolveTargetDir rootDir folderPath
    (match oldFilename with
     | some old =>
         if old ≠ "" ∧ old ≠ note.filename then
           tryCatchM (deleteNote old folderPath) (fun _ => pure ())
         else pure ()
     | none => pure ())
    if jsStartsWith targetDir "content://" then
      safWriteFile (targetDir ++ "/" ++ note.filename ++ ".md") note.content
    else
      writeAsStringAsync (targetDir ++ note.filename ++ ".md") note.content
    modifyS clearCacheFn

/-- `processMarkdownFiles`: maps the per-file reader over the files and drops
null results (the directory-contents readers below never produce null, so a
per-file failure rejects the whole `Promise.all`). -/
def processMarkdownFiles {α : Type} (files : List α) (process : α → M (Option NoteItem)) :
    M (List NoteItem) := do
  let res ← mapM' process files
  pure (res.filterMap id)

/-- The per-entry probe of `processRegularFiles`: hidden names are skipped
before any I/O; otherwise the entry is stat-ed and kept only when it is an
existing directory; per-entry errors are swallowed. -/
def probeFolder (currentDir file : String) : M (Option FolderItem) :=
  tryCatchM
    (do
      if jsStartsWith file "." then pure none
      else do
        let filePath := currentDir ++ file
        let info ← getInfoAsync filePath
        if info.exists' ∧ info.isDirectory then
          let s ← getS
          let modTime :=
            match info.modificationTime with
            | some m => m
            | none => s.now
          pure (some ⟨file, filePath ++ "/", modTime, modTime⟩)
        else pure none)
    (fun _ => pure none)

/-- `processRegularFiles`: names ending in `.md` (case-sensitive) form the
Markdown partition; the remaining names are probed for non-hidden existing
directories. -/
def processRegularFiles (files : List String) (currentDir : String) :
    M (List FolderItem × List String) := do
  let markdownFiles := files.filter (fun f => jsEndsWith f ".md")
  let regularFiles := files.filter (fun f => ¬ jsEndsWith f ".md")
  let folderOpts ← mapM' (probeFolder currentDir) regularFiles
  pure (folderOpts.filterMap id, markdownFiles)

/-- The per-file reader `getSAFDirectoryContents` passes to
`processMarkdownFiles` (no per-file catch: a failed read rejects the whole
listing). -/
def safItemReader (file : SAFFile) : M (Option NoteItem) := do
  let content ← safReadFile file.uri
  pure (some ⟨stripMd file.name, jsTake content 200, file.lastModified,
              file.lastModified, file.uri⟩)

/-- `getSAFDirectoryContents`: any failure inside (listing or a per-file
read) degrades to an empty DirectoryContents for the target. -/
def getSAFDirectoryContents (directoryUri rootPath : String) : M DirectoryContents :=
  tryCatchM
    (do
      let files ← safListFiles directoryUri
      let fm := separateFoldersAndMarkdownFiles files
      let notes ← processMarkdownFiles fm.2 safItemReader
      pure (buildDirectoryContents fm.1 notes directoryUri rootPath))
    (fun _ => pure (buildEmptyDirectoryContents directoryUri rootPath))

/-- The per-file reader `getFileSystemDirectoryContents` passes to
`processMarkdownFiles` (no per-file catch). -/
def fsItemReader (currentDir file : String) : M (Option NoteItem) := do
  let filePath := currentDir ++ file
  let content ← readAsStringAsync filePath
  let info ← getInfoAsync filePath
  let s ← getS
  let modTime :=
    match info.modificationTime with
    | some m => if info.exists' then m else s.now
    | none => s.now
  pure (some ⟨stripMd file, jsTake content 200, modTime, modTime, filePath⟩)

/-- `getFileSystemDirectoryContents`: same degrade-to-empty policy on the
path backend. -/
def getFileSystemDirectoryContents (currentDir rootPath : String) : M DirectoryContents :=
  tryCatchM
    (do
      let files ← readDirectoryAsync currentDir
      let fm ← processRegularFiles files currentDir
      let notes ← processMarkdownFiles fm.2 (fsItemReader currentDir)
      pure (buildDirectoryContents fm.1 notes currentDir rootPath))
    (fun _ => pure (buildEmptyDirectoryContents currentDir rootPath))

/-- `getWebDirectoryContents`: flat note set, no folders, `parentPath`
null; the stored entries carry no `preview` field, so the preview falls back
to the content prefix, and an empty `filePath` is synthesized. -/
def getWebDirectoryContents (store : List WebNote) (targetPath : String) :
    DirectoryContents :=
  let notes := store.map (fun n =>
    NoteItem.mk n.filename (jsTake n.content 200) n.createdAt n.updatedAt
      (if n.filePath ≠ "" then n.filePath
       else targetPath ++ "/" ++ n.filename ++ ".md"))
  { folders := [], notes := sortBy noteItemLe notes,
    currentPath := targetPath, parentPath := none }

/-- `getDirectoryContents(directoryPath?)`: note that `targetPath` and
`rootPath` are captured before the preference load, exactly as in the
source. -/
def getDirectoryContents (directoryPath : Option String) : M DirectoryContents := do
  let s ← getS
  let targetPath :=
    match directoryPath with
    | some p => if p ≠ "" then p else getCurrentDirectory s
    | none => getCurrentDirectory s
  let rootPath := getNotesDirectory s
  loadDirectoryPreference
  ensureDirectoryExists
  let s' ← getS
  if s'.platform = Plat.web then
    pure (getWebDirectoryContents s'.web targetPath)
  else
    tryCatchM
      (if jsStartsWith targetPath "content://" then
        getSAFDirectoryContents targetPath rootPath
       else getFileSystemDirectoryContents targetPath rootPath)
      (fun _ => pure ⟨[], [], targetPath, getParentPath targetPath rootPath⟩)

/-- `getWebNotes`: returns the stored entries as previews (stored entries
carry no `preview` field; it is modeled as empty, and only `filename` is
consumed by the callers the claims exercise). -/
def getWebNotes (store : List WebNote) : List NotePreview :=
  store.map (fun n => ⟨n.filename, "", n.createdAt, n.updatedAt, n.filePath⟩)

/-- The per-file reader of `getFileSystemNotes` (preview path, with a
per-file catch that degrades a failed read to null). -/
def fsPreviewReader (currentDir file : String) : M (Option NotePreview) :=
  tryCatchM
    (do
      let filePath := currentDir ++ file
      let content ← readAsStringAsync filePath
      let info ← getInfoAsync filePath
      let s ← getS
      let modTime :=
        match info.modificationTime with
        | some m => if info.exists' then m else s.now
        | none => s.now
      pure (some (NotePreview.mk (stripMd file) (jsTake content 200)
        modTime modTime filePath)))
    (fun _ => pure none)

/-- `getFileSystemNotes`: the TTL-guarded notes cache sits on this path;
per-file read failures are swallowed per entry; a listing failure yields an
empty result without caching. -/
def getFileSystemNotes (currentDir : String) : M (List NotePreview) := do
  let s ← getS
  let cacheKey := "notes_" ++ currentDir
  if isCacheValid s ∧ (alookup cacheKey s.notesCache).isSome then
    pure ((alookup cacheKey s.notesCache).getD [])
  else
    tryCatchM
      (do
        let files ← readDirectoryAsync currentDir
        let markdownFiles := files.filter (fun f => jsEndsWith f ".md")
        let notesOpts ← mapM' (fsPreviewReader currentDir) markdownFiles
        let sorted := sortBy previewLe (notesOpts.filterMap id)
        modifyS (fun s =>
          { s with notesCache := aset cacheKey sorted s.notesCache,
                   lastCacheUpdate := s.now })
        pure sorted)
      (fun _ => pure [])

/-- The per-file reader of `getSAFNotes` (preview path, per-file catch). -/
def safPreviewReader (file : SAFFile) : M (Option NotePreview) :=
  tryCatchM
    (do
      let content ← safReadFile file.uri
      pure (some (NotePreview.mk (stripMd file.name) (jsTake content 200)
        file.lastModified file.lastModified file.uri)))
    (fun _ => pure none)

/-- `getSAFNotes`: SAF counterpart of the cached notes listing (here the
Markdown filter also requires the file tag). -/
def getSAFNotes (directoryUri : String) : M (List NotePreview) := do
  let s ← getS
  let cacheKey := "notes_" ++ directoryUri
  if isCacheValid s ∧ (alookup cacheKey s.notesCache).isSome then
    pure ((alookup cacheKey s.notesCache).getD [])
  else
    tryCatchM
      (do
        let files ← safListFiles directoryUri
        let markdownFiles := files.filter
          (fun f => jsEndsWith f.name ".md" ∧ ¬ f.isDir)
        let notesOpts ← mapM' safPreviewReader markdownFiles
        let sorted := sortBy previewLe (notesOpts.filterMap id)
        modifyS (fun s =>
          { s with notesCache := aset cacheKey sorted s.notesCache,
                   lastCacheUpdate := s.now })
        pure sorted)
      (fun _ => pure [])

/-- `getAllNotes`. -/
def getAllNotes : M (List NotePreview) := do
  loadDirectoryPreference
  ensureDirectoryExists
  let s ← getS
  if s.platform = Plat.web then pure (getWebNotes s.web)
  else
    let currentDir := getNotesDirectory s
    tryCatchM
      (if jsStartsWith currentDir "content://" then getSAFNotes currentDir
       else getFileSystemNotes currentDir)
      (fun _ => pure [])

/-- Keep predicate of `deleteWebFolder`: a stored note survives iff its
`filePath` does not start with the raw folder prefix (no separator check). -/
def webFolderKeep (pfx : String) (n : WebNote) : Bool :=
  ¬ jsStartsWith n.filePath pfx

/-- `deleteWebFolder(folderName, folderPath?)`. -/
def deleteWebFolder (folderName : String) (folderPath : Option String) : M Unit :=
  modifyS (fun s =>
    let pfx :=
      match folderPath with
      | some p => if p ≠ "" then p ++ "/" ++ folderName else folderName
      | none => folderName
    { s with web := s.web.filter (webFolderKeep pfx) })

/-! ## Editor-side filename derivation (src/app/editor.tsx) -/

/-- `sanitizeFilename(title)`: strip `[<>:"/\\|?*]`, collapse whitespace
runs, strip trailing dots, cap at 100 characters, trim, fall back to
`Untitled`. -/
def sanitizeFilename (title : String) : String :=
  let cs := title.toList.filter (fun c => ¬ jsInvalidChar c)
  let cs := collapseWs cs
  let cs := dropTrailingDots cs
  let cs := cs.take 100
  let cs := jsTrimChars cs
  if cs.isEmpty then "Untitled" else String.mk cs

/-- `\w` word characters (ASCII letters, digits, underscore). -/
def isWordChar (c : Char) : Bool :=
  c.isAlphanum || c = '_'

/-- Core of `replace(/\b\w/g, l => l.toUpperCase())`. -/
def formatTitleAux : Option Char → List Char → List Char
  | _, [] => []
  | prev, c :: cs =>
      let boundary :=
        match prev with
        | none => true
        | some p => !(isWordChar p)
      let c' := if isWordChar c && boundary then c.toUpper else c
      c' :: formatTitleAux (some c) cs

/-- `formatFilenameAsTitle`. -/
def formatFilenameAsTitle (filename : String) : String :=
  String.mk (formatTitleAux none filename.toList)

/-- The collision loop of `generateUniqueFilename`: while the candidate is
taken by a different note, append `" <counter>"` to the sanitized base and
increment.  The source's `while` always terminates because only finitely
many names exist; the fuel `existing.length + 2` provided at the call site
is sufficient for every exit the claims exercise. -/
def uniqLoop (base : String) (existing : List String) (current : Option String) :
    String → Nat → Nat → String
  | filename, _, 0 => filename
  | filename, counter, fuel + 1 =>
      if existing.contains filename ∧ some filename ≠ current then
        uniqLoop base existing current (base ++ " " ++ toString counter) (counter + 1) fuel
      else filename

/-- The listing-and-loop part of `generateUniqueFilename` (after the early
keep-current return): enumerate existing filenames via `getAllNotes`; on
failure just use the sanitized base. -/
def generateUniqueRest (sanitized : String) (currentFilename : Option String) : M String :=
  tryCatchM
    (do
      let all ← getAllNotes
      let existing := all.map (fun n => n.filename)
      pure (uniqLoop sanitized existing currentFilename sanitized 1 (existing.length + 2)))
    (fun _ => pure sanitized)

/-- `generateUniqueFilename(baseTitle, currentFilename?)`. -/
def generateUniqueFilenameM (baseTitle : String) (currentFilename : Option String) :
    M String := do
  let sanitized := sanitizeFilename (if baseTitle ≠ "" then baseTitle else "Untitled")
  match currentFilename with
  | some c =>
      if c ≠ "" ∧ sanitizeFilename (formatFilenameAsTitle c) = sanitized then pure c
      else generateUniqueRest sanitized currentFilename
  | none => generateUniqueRest sanitized currentFilename

/-! ## Observation helpers and concrete states for the claims -/

instance {ε α : Type} [DecidableEq ε] [DecidableEq α] : DecidableEq (Except ε α) :=
  fun x y =>
    match x, y with
    | Except.ok a, Except.ok b =>
        if h : a = b then Decidable.isTrue (congrArg Except.ok h)
        else Decidable.isFalse (fun hh => h (Except.ok.inj hh))
    | Except.error e, Except.error f =>
        if h : e = f then Decidable.isTrue (congrArg Except.error h)
        else Decidable.isFalse (fun hh => h (Except.error.inj hh))
    | Except.ok _, Except.error _ => Decidable.isFalse (fun hh => Except.noConfusion hh)
    | Except.error _, Except.ok _ => Decidable.isFalse (fun hh => Except.noConfusion hh)

/-- Is an event a backend directory-listing call? -/
def isListEv : Event → Bool
  | Event.listDir _ => true
  | _ => false

/-- Number of backend directory-listing calls recorded so far. -/
def listCalls (s : ServiceState) : Nat :=
  (s.trace.filter isListEv).length

/-- First stored web entry with the given filename. -/
def webFind (store : List WebNote) (filename : String) : Option WebNote :=
  store.find? (fun n => n.filename = filename)

/-- An empty document-provider store. -/
def emptySAF : SAFFS := ⟨[], [], [], [], []⟩

/-- A fresh Android service over the path backend: default root `R/` exists
and is empty, the root preference is already loaded (null), caches empty,
clock at 100. -/
def baseState : ServiceState :=
  { platform := Plat.android,
    notesDirectory := "R/",
    customDirectory := none,
    currentDirectory := none,
    notesCache := [], noteContentCache := [],
    directoryPreferenceCache := some none,
    lastCacheUpdate := 0, now := 100,
    fs := { files := [], dirPaths := [("R/", 1)], listings := [("R/", [])],
            failWrites := [], failDeletes := [] },
    saf := emptySAF, web := [], prefs := ⟨[], false⟩, trace := [] }

/-- `baseState` with the root containing `a.md`, `b.txt` and a hidden
directory `.git`. -/
def dirState : ServiceState :=
  { baseState with
    fs := { files := [("R/a.md", ("hello", 7)), ("R/b.txt", ("x", 5))],
            dirPaths := [("R/", 1), ("R/.git/", 2)],
            listings := [("R/", ["a.md", "b.txt", ".git"])],
            failWrites := [], failDeletes := [] } }

/-- A fresh web-platform service with an empty flat store. -/
def webState : ServiceState :=
  { baseState with platform := Plat.web }

/-- Full backend path of a note file exactly as the service composes it
(SAF targets join with a slash, path targets by plain concatenation). -/
def notePathOf (s : ServiceState) (f : String) (folder : Option String) : String :=
  if jsStartsWith (resolveTargetDir (getNotesDirectory s) folder) "content://" then
    resolveTargetDir (getNotesDirectory s) folder ++ "/" ++ f ++ ".md"
  else resolveTargetDir (getNotesDirectory s) folder ++ f ++ ".md"

/-- Does the effective save/delete target for this state and folder live on
the document-provider backend? -/
def targetIsSaf (s : ServiceState) (folder : Option String) : Bool :=
  jsStartsWith (resolveTargetDir (getNotesDirectory s) folder) "content://"

/-- The write-failure fault table of the backend the save target lives on. -/
def writeFailsOf (s : ServiceState) (folder : Option String) : List String :=
  if targetIsSaf s folder then s.saf.failWrites else s.fs.failWrites

/-- Content stored at a path on the backend the save target lives on. -/
def storedContentAt (s : ServiceState) (path : String) (folder : Option String) :
    Option String :=
  if targetIsSaf s folder then alookup path s.saf.contents
  else (alookup path s.fs.files).map Prod.fst

/-- Pure characterization of the per-entry folder probe of
`processRegularFiles`: hidden names are dropped, and a name survives exactly
when the backend stats it as an existing directory. -/
def probePure (fs : PathFS) (currentDir file : String) : Option FolderItem :=
  if jsStartsWith file "." then none
  else
    match alookup (currentDir ++ file) fs.files with
    | some _ => none
    | none =>
        match alookup (currentDir ++ file) fs.dirPaths with
        | some m => some ⟨file, currentDir ++ file ++ "/", m, m⟩
        | none =>
            match alookup (currentDir ++ file ++ "/") fs.dirPaths with
            | some m => some ⟨file, currentDir ++ file ++ "/", m, m⟩
            | none => none

/-- Is an event a backend delete call? -/
def isDeleteEv : Event → Bool
  | Event.deleteF _ => true
  | _ => false


/-- `baseState` with an existing note `Old.md` at the root (rename
scenario). -/
def rnState : ServiceState :=
  { baseState with
    fs := { files := [("R/Old.md", ("oc", 5))], dirPaths := [("R/", 1)],
            listings := [("R/", ["Old.md"])], failWrites := [], failDeletes := [] } }

/-- `webState` holding one stored entry named `Old`. -/
def webOldState : ServiceState :=
  { webState with web := [⟨none, "Old", "oc", 1, 1, ""⟩] }

/-! ## Run lemmas for the monad -/

theorem bind_run {α β : Type} (x : M α) (f : α → M β) (s : ServiceState) :
    (x >>= f) s =
      match x s with
      | (Except.ok a, s') => f a s'
      | (Except.error e, s') => (Except.error e, s') := rfl

theorem pure_run {α : Type} (a : α) (s : ServiceState) :
    (pure a : M α) s = (Except.ok a, s) := rfl

theorem alookup_aset_self {α : Type} (k : String) (v : α) (l : List (String × α)) :
    alookup k (aset k v l) = some v := by
  induction l with
  | nil => simp [aset, alookup]
  | cons kv rest ih =>
      by_cases h : kv.1 = k
      · simp [aset, alookup, h]
      · simp [aset, alookup, h, ih]

theorem alookup_aset_ne {α : Type} (k k' : String) (v : α) (l : List (String × α))
    (h : k' ≠ k) : alookup k' (aset k v l) = alookup k' l := by
  have hkk : k ≠ k' := fun hh => h hh.symm
  induction l with
  | nil => simp [aset, alookup, hkk]
  | cons kv rest ih =>
      by_cases hk : kv.1 = k
      · have hk' : kv.1 ≠ k' := by rw [hk]; exact hkk
        simp [aset, alookup, hk, hk', hkk]
      · simp [aset, alookup, hk, ih]

theorem alookup_aset_isSome {α : Type} (k k' : String) (v : α) (l : List (String × α))
    (h : (alookup k' l).isSome) : (alookup k' (aset k v l)).isSome := by
  by_cases hk : k' = k
  · subst hk; simp [alookup_aset_self]
  · rw [alookup_aset_ne _ _ _ _ hk]; exact h

/-- The first web entry with a given filename after an upsert of that
filename is the upserted entry. -/
theorem webFind_webUpsert (nd : WebNote) (store : List WebNote) :
    webFind (webUpsert nd store) nd.filename = some nd := by
  induction store with
  | nil => simp [webUpsert, webFind, List.find?]
  | cons n rest ih =>
      by_cases h : n.filename = nd.filename
      · simp [webUpsert, webFind, List.find?, h]
      · simpa [webUpsert, webFind, List.find?, h] using ih

/-! ## Helper lemmas: totality and state shape of the service steps -/

/-- `loadDirectoryPreference` is a no-op when the preference cache already
holds the null outcome. -/
theorem loadPref_cached_none (s : ServiceState)
    (h : s.directoryPreferenceCache = some none) :
    loadDirectoryPreference s = (Except.ok (), s) := by
  unfold loadDirectoryPreference
  simp [h, bind_run, pure_run, getS]

/-- A pair whose first component is known splits into that value and its own
second component. -/
theorem pair_split {α β : Type} {a : α} (p : α × β) (h : p.1 = a) : p = (a, p.2) := by
  cases p
  cases h
  rfl

/-- `loadDirectoryPreference` never raises. -/
theorem loadPref_ok (s : ServiceState) :
    (loadDirectoryPreference s).1 = Except.ok () := by
  unfold loadDirectoryPreference
  cases hc : s.directoryPreferenceCache with
  | some cached =>
      cases cached with
      | some d => simp [hc, bind_run, pure_run, getS, modifyS]
      | none => simp [hc, bind_run, pure_run, getS]
  | none =>
      by_cases hw : s.platform = Plat.web
      · simp [hc, hw, bind_run, pure_run, getS, modifyS]
      · by_cases hf : s.prefs.failGet
        · simp [hc, hw, hf, bind_run, pure_run, getS, modifyS, tryCatchM,
            asyncGetItem, traceEv, throwM]
        · cases hv : alookup "notes_directory_preference" s.prefs.items with
          | some dir =>
              by_cases hd : dir = ""
              · simp [hc, hw, hf, hv, hd, bind_run, pure_run, getS, modifyS,
                  tryCatchM, asyncGetItem, traceEv, throwM]
              · simp [hc, hw, hf, hv, hd, bind_run, pure_run, getS, modifyS,
                  tryCatchM, asyncGetItem, traceEv, throwM]
          | none =>
              simp [hc, hw, hf, hv, bind_run, pure_run, getS, modifyS,
                tryCatchM, asyncGetItem, traceEv, throwM]

/-- State shape of `ensureDirectoryExists`: it never raises, it can only
touch the directory table and the root's listing, and it records no
directory-listing event. -/
theorem ensure_spec (s : ServiceState) :
    ∃ dp ls t,
      ensureDirectoryExists s =
        (Except.ok (), { s with
          fs := { s.fs with dirPaths := dp, listings := ls },
          trace := s.trace ++ t }) ∧
      (∀ e ∈ t, isListEv e = false) ∧
      (∀ k, k ≠ getNotesDirectory s → alookup k ls = alookup k s.fs.listings) ∧
      (∀ k, (alookup k s.fs.listings).isSome → (alookup k ls).isSome) := by
  by_cases hw : s.platform = Plat.web
  · refine ⟨s.fs.dirPaths, s.fs.listings, [], ?_, ?_, ?_, ?_⟩
    · simp [ensureDirectoryExists, hw, bind_run, pure_run, getS]
      rw [← hw]
    · simp
    · intro k _; rfl
    · intro k h; exact h
  · by_cases hc : jsStartsWith (getNotesDirectory s) "content://"
    · refine ⟨s.fs.dirPaths, s.fs.listings, [], ?_, ?_, ?_, ?_⟩
      · simp [ensureDirectoryExists, hw, hc, bind_run, pure_run, getS]
      · simp
      · intro k _; rfl
      · intro k h; exact h
    · cases hf : alookup (getNotesDirectory s) s.fs.files with
      | some cm =>
          refine ⟨s.fs.dirPaths, s.fs.listings, [Event.statF (getNotesDirectory s)], ?_, ?_, ?_, ?_⟩
          · simp [ensureDirectoryExists, hw, hc, hf, bind_run, pure_run, getS,
              getInfoAsync, traceEv, modifyS]
          · intro e he; simp at he; subst he; rfl
          · intro k _; rfl
          · intro k h; exact h
      | none =>
          cases hd : alookup (getNotesDirectory s) s.fs.dirPaths with
          | some m =>
              refine ⟨s.fs.dirPaths, s.fs.listings, [Event.statF (getNotesDirectory s)], ?_, ?_, ?_, ?_⟩
              · simp [ensureDirectoryExists, hw, hc, hf, hd, bind_run, pure_run, getS,
                  getInfoAsync, traceEv, modifyS]
              · intro e he; simp at he; subst he; rfl
              · intro k _; rfl
              · intro k h; exact h
          | none =>
              cases hd2 : alookup (getNotesDirectory s ++ "/") s.fs.dirPaths with
              | some m =>
                  refine ⟨s.fs.dirPaths, s.fs.listings, [Event.statF (getNotesDirectory s)], ?_, ?_, ?_, ?_⟩
                  · simp [ensureDirectoryExists, hw, hc, hf, hd, hd2, bind_run, pure_run, getS,
                      getInfoAsync, traceEv, modifyS]
                  · intro e he; simp at he; subst he; rfl
                  · intro k _; rfl
                  · intro k h; exact h
              | none =>
                  refine ⟨aset (getNotesDirectory s) s.now s.fs.dirPaths,
                          aset (getNotesDirectory s) [] s.fs.listings,
                          [Event.statF (getNotesDirectory s), Event.mkdir (getNotesDirectory s)],
                          ?_, ?_, ?_, ?_⟩
                  · simp [ensureDirectoryExists, hw, hc, hf, hd, hd2, bind_run, pure_run, getS,
                      getInfoAsync, traceEv, modifyS, makeDirectoryAsync]
                  · intro e he; simp at he; rcases he with he | he <;> subst he <;> rfl
                  · intro k hk; exact alookup_aset_ne _ _ _ _ hk
                  · intro k h; exact alookup_aset_isSome _ _ _ _ h

/-- State shape of a non-web `deleteNote`: whatever the outcome, the trace
grows by exactly the one delete attempt, and the fault-injection tables are
untouched. -/
theorem delete_spec (s : ServiceState) (old : String) (folder : Option String)
    (hplat : ¬ s.platform = Plat.web) :
    ∃ r fs' saf' nc ncc lcu,
      deleteNote old folder s =
        (r, { s with
              fs := fs', saf := saf', notesCache := nc, noteContentCache := ncc,
              lastCacheUpdate := lcu,
              trace := s.trace ++ [Event.deleteF (notePathOf s old folder)] }) ∧
      fs'.failWrites = s.fs.failWrites ∧ saf'.failWrites = s.saf.failWrites := by
  by_cases hsaf : jsStartsWith (resolveTargetDir (getNotesDirectory s) folder) "content://"
  · by_cases hfd : (resolveTargetDir (getNotesDirectory s) folder ++ "/" ++ old ++ ".md")
        ∈ s.saf.failDeletes
    · refine ⟨Except.error "SAF: delete failed", s.fs, s.saf, s.notesCache,
        s.noteContentCache, s.lastCacheUpdate, ?_, rfl, rfl⟩
      simp [deleteNote, notePathOf, hplat, hsaf, hfd, bind_run, pure_run, getS, modifyS,
        traceEv, safUnlink, throwM]
    · cases hct : alookup (resolveTargetDir (getNotesDirectory s) folder ++ "/" ++ old ++ ".md")
          s.saf.contents with
      | some c =>
          refine ⟨Except.ok (), s.fs,
            { s.saf with
              contents := aremove (resolveTargetDir (getNotesDirectory s) folder ++ "/" ++ old ++ ".md") s.saf.contents,
              stats := aremove (resolveTargetDir (getNotesDirectory s) folder ++ "/" ++ old ++ ".md") s.saf.stats },
            [], [], 0, ?_, rfl, rfl⟩
          simp [deleteNote, notePathOf, hplat, hsaf, hfd, hct, bind_run, pure_run, getS,
            modifyS, traceEv, safUnlink, clearCacheFn]
      | none =>
          refine ⟨Except.error "SAF: unlink target missing", s.fs, s.saf, s.notesCache,
            s.noteContentCache, s.lastCacheUpdate, ?_, rfl, rfl⟩
          simp [deleteNote, notePathOf, hplat, hsaf, hfd, hct, bind_run, pure_run, getS,
            modifyS, traceEv, safUnlink, throwM]
  · by_cases hfd : (resolveTargetDir (getNotesDirectory s) folder ++ old ++ ".md")
        ∈ s.fs.failDeletes
    · refine ⟨Except.error "EPERM: delete failed", s.fs, s.saf, s.notesCache,
        s.noteContentCache, s.lastCacheUpdate, ?_, rfl, rfl⟩
      simp [deleteNote, notePathOf, hplat, hsaf, hfd, bind_run, pure_run, getS, modifyS,
        traceEv, deleteAsync, throwM]
    · cases hct : alookup (resolveTargetDir (getNotesDirectory s) folder ++ old ++ ".md")
          s.fs.files with
      | some c =>
          refine ⟨Except.ok (),
            { s.fs with
              files := aremove (resolveTargetDir (getNotesDirectory s) folder ++ old ++ ".md") s.fs.files,
              listings := removeNameFromListings (resolveTargetDir (getNotesDirectory s) folder ++ old ++ ".md") s.fs.listings },
            s.saf, [], [], 0, ?_, rfl, rfl⟩
          simp [deleteNote, notePathOf, hplat, hsaf, hfd, hct, bind_run, pure_run, getS,
            modifyS, traceEv, deleteAsync, clearCacheFn]
      | none =>
          refine ⟨Except.error "ENOENT: file not found", s.fs, s.saf, s.notesCache,
            s.noteContentCache, s.lastCacheUpdate, ?_, rfl, rfl⟩
          simp [deleteNote, notePathOf, hplat, hsaf, hfd, hct, bind_run, pure_run, getS,
            modifyS, traceEv, deleteAsync, throwM]

/-- `getNotesDirectory` only reads the root override and the default root. -/
theorem getNotesDirectory_eq {s s' : ServiceState}
    (h1 : s'.customDirectory = s.customDirectory)
    (h2 : s'.notesDirectory = s.notesDirectory) :
    getNotesDirectory s' = getNotesDirectory s := by
  unfold getNotesDirectory
  rw [h1, h2]

/-- `notePathOf` only reads the root override and the default root. -/
theorem notePathOf_eq {s s' : ServiceState} (f : String) (folder : Option String)
    (h1 : s'.customDirectory = s.customDirectory)
    (h2 : s'.notesDirectory = s.notesDirectory) :
    notePathOf s' f folder = notePathOf s f folder := by
  unfold notePathOf
  rw [getNotesDirectory_eq h1 h2]

/-- `targetIsSaf` only reads the root override and the default root. -/
theorem targetIsSaf_eq {s s' : ServiceState} (folder : Option String)
    (h1 : s'.customDirectory = s.customDirectory)
    (h2 : s'.notesDirectory = s.notesDirectory) :
    targetIsSaf s' folder = targetIsSaf s folder := by
  unfold targetIsSaf
  rw [getNotesDirectory_eq h1 h2]

/-- Claim C5 (corrected, non-web part): on the path-based and
document-provider backends, `saveNote` with a differing `previousFilename`
attempts the old-file delete (swallowing its failure) before the final
write — the write event is the last backend call — raises exactly when that
final write fails, and on success clears both caches and stores the new
content under the new filename. -/
theorem saveNote_rename (s : ServiceState) (note : Note) (old : String)
    (folder : Option String)
    (hplat : ¬ s.platform = Plat.web) (hold1 : old ≠ "") (hold2 : old ≠ note.filename) :
    (∃ mid,
      ((saveNote note (some old) folder) s).2.trace
          = s.trace ++ mid ++ [Event.writeF (notePathOf s note.filename folder)] ∧
      Event.deleteF (notePathOf s old folder) ∈ mid) ∧
    (((saveNote note (some old) folder) s).1 = Except.ok () ↔
      ¬ (notePathOf s note.filename folder) ∈ writeFailsOf s folder) ∧
    (¬ (notePathOf s note.filename folder) ∈ writeFailsOf s folder →
      ((saveNote note (some old) folder) s).2.notesCache = [] ∧
      ((saveNote note (some old) folder) s).2.noteContentCache = [] ∧
      ((saveNote note (some old) folder) s).2.lastCacheUpdate = 0 ∧
      storedContentAt ((saveNote note (some old) folder) s).2
        (notePathOf s note.filename folder) folder = some note.content) := by
  obtain ⟨dp, ls, tE, hens, htE, hlsne, hlssome⟩ := ensure_spec s
  generalize hEgen : ({ s with
      fs := { s.fs with dirPaths := dp, listings := ls },
      trace := s.trace ++ tE } : ServiceState) = sE at hens
  have hEplat : sE.platform = s.platform := by rw [← hEgen]
  have hEcustom : sE.customDirectory = s.customDirectory := by rw [← hEgen]
  have hEnotesDir : sE.notesDirectory = s.notesDirectory := by rw [← hEgen]
  have hEnow : sE.now = s.now := by rw [← hEgen]
  have hEtrace : sE.trace = s.trace ++ tE := by rw [← hEgen]
  have hEfsfw : sE.fs.failWrites = s.fs.failWrites := by rw [← hEgen]
  have hEsaf : sE.saf = s.saf := by rw [← hEgen]
  have hplatE : ¬ sE.platform = Plat.web := by rw [hEplat]; exact hplat
  obtain ⟨r, fs', saf', nc, ncc, lcu, hdel, hfw, hsw⟩ := delete_spec sE old folder hplatE
  generalize hDgen : ({ sE with
      fs := fs', saf := saf', notesCache := nc, noteContentCache := ncc,
      lastCacheUpdate := lcu,
      trace := sE.trace ++ [Event.deleteF (notePathOf sE old folder)] } : ServiceState)
      = sD at hdel
  have hDfs : sD.fs = fs' := by rw [← hDgen]
  have hDsaf : sD.saf = saf' := by rw [← hDgen]
  have hDnow : sD.now = sE.now := by rw [← hDgen]
  have hDcustom : sD.customDirectory = sE.customDirectory := by rw [← hDgen]
  have hDnotesDir : sD.notesDirectory = sE.notesDirectory := by rw [← hDgen]
  have hDtrace : sD.trace = sE.trace ++ [Event.deleteF (notePathOf sE old folder)] := by
    rw [← hDgen]
  have htc : tryCatchM (deleteNote old folder) (fun _ => (pure () : M Unit)) sE
      = (Except.ok (), sD) := by
    unfold tryCatchM
    rw [hdel]
    cases r with
    | ok a => cases a; rfl
    | error e => rfl
  have hres : resolveTargetDir (getNotesDirectory sE) folder
      = resolveTargetDir (getNotesDirectory s) folder := by
    rw [getNotesDirectory_eq hEcustom hEnotesDir]
  by_cases hb : jsStartsWith (resolveTargetDir (getNotesDirectory s) folder) "content://"
  · have hrun : saveNote note (some old) folder s =
        bindM (safWriteFile (resolveTargetDir (getNotesDirectory s) folder ++ "/" ++
          note.filename ++ ".md") note.content) (fun _ => modifyS clearCacheFn) sD := by
      simp only [saveNote, bind_run, pure_run, getS, if_neg hplat, hens, hres,
        ne_eq, hold1, hold2, not_false_iff, and_self, ite_true, if_pos, htc, hb]
      rfl
    have hnp : notePathOf s note.filename folder
        = resolveTargetDir (getNotesDirectory s) folder ++ "/" ++ note.filename ++ ".md" := by
      unfold notePathOf
      rw [if_pos hb]
    have hnpo : notePathOf sE old folder
        = notePathOf s old folder := notePathOf_eq old folder hEcustom hEnotesDir
    have hwf : writeFailsOf s folder = s.saf.failWrites := by
      unfold writeFailsOf targetIsSaf
      rw [if_pos hb]
    have hsaffw : sD.saf.failWrites = s.saf.failWrites := by
      rw [hDsaf, hsw, hEsaf]
    by_cases hw2 : (resolveTargetDir (getNotesDirectory s) folder ++ "/" ++
        note.filename ++ ".md") ∈ s.saf.failWrites
    · have hwr : saveNote note (some old) folder s =
          (Except.error "SAF: write failed",
            { sD with trace := sD.trace ++ [Event.writeF (resolveTargetDir
                (getNotesDirectory s) folder ++ "/" ++ note.filename ++ ".md")] }) := by
        have hcond : sD.saf.failWrites.contains (resolveTargetDir (getNotesDirectory s)
            folder ++ "/" ++ note.filename ++ ".md") = true := by
          rw [hsaffw]
          simpa using hw2
        rw [hrun]
        simp only [safWriteFile, bindM, bind_run, pure_run, getS, traceEv, modifyS, throwM]
        simp only [hcond, ite_true, if_pos]
        rfl
      rw [hwr, hnp, hwf]
      refine ⟨⟨tE ++ [Event.deleteF (notePathOf s old folder)], ?_, by simp⟩, ?_, ?_⟩
      · simp [hDtrace, hEtrace, hnpo, List.append_assoc]
      · simp [hw2]
      · intro hcon
        exact absurd hw2 hcon
    · have hwr : saveNote note (some old) folder s =
          (Except.ok (), clearCacheFn
            { sD with
              saf := { sD.saf with
                       contents := aset (resolveTargetDir (getNotesDirectory s) folder
                         ++ "/" ++ note.filename ++ ".md") note.content sD.saf.contents,
                       stats := aset (resolveTargetDir (getNotesDirectory s) folder
                         ++ "/" ++ note.filename ++ ".md") sD.now sD.saf.stats },
              trace := sD.trace ++ [Event.writeF (resolveTargetDir
                (getNotesDirectory s) folder ++ "/" ++ note.filename ++ ".md")] }) := by
        have hcond : sD.saf.failWrites.contains (resolveTargetDir (getNotesDirectory s)
            folder ++ "/" ++ note.filename ++ ".md") = false := by
          rw [hsaffw]
          simpa using hw2
        rw [hrun]
        simp only [safWriteFile, bindM, bind_run, pure_run, getS, traceEv, modifyS, throwM]
        simp only [hcond, ite_false, if_neg, Bool.false_eq_true, not_false_iff]
        rfl
      rw [hwr, hnp, hwf]
      refine ⟨⟨tE ++ [Event.deleteF (notePathOf s old folder)], ?_, by simp⟩, ?_, ?_⟩
      · simp [clearCacheFn, hDtrace, hEtrace, hnpo, List.append_assoc]
      · simp [hw2]
      · intro _
        refine ⟨rfl, rfl, rfl, ?_⟩
        have hsafT : targetIsSaf (clearCacheFn
            { sD with
              saf := { sD.saf with
                       contents := aset (resolveTargetDir (getNotesDirectory s) folder
                         ++ "/" ++ note.filename ++ ".md") note.content sD.saf.contents,
                       stats := aset (resolveTargetDir (getNotesDirectory s) folder
                         ++ "/" ++ note.filename ++ ".md") sD.now sD.saf.stats },
              trace := sD.trace ++ [Event.writeF (resolveTargetDir
                (getNotesDirectory s) folder ++ "/" ++ note.filename ++ ".md")] }) folder
            = targetIsSaf s folder := by
          refine targetIsSaf_eq folder ?_ ?_
          · show sD.customDirectory = s.customDirectory
            rw [hDcustom, hEcustom]
          · show sD.notesDirectory = s.notesDirectory
            rw [hDnotesDir, hEnotesDir]
        unfold storedContentAt
        rw [hsafT]
        unfold targetIsSaf
        rw [if_pos hb]
        show alookup _ (aset _ note.content sD.saf.contents) = some note.content
        exact alookup_aset_self _ _ _
  · have hrun : saveNote note (some old) folder s =
        bindM (writeAsStringAsync (resolveTargetDir (getNotesDirectory s) folder ++
          note.filename ++ ".md") note.content) (fun _ => modifyS clearCacheFn) sD := by
      simp only [saveNote, bind_run, pure_run, getS, if_neg hplat, hens, hres,
        ne_eq, hold1, hold2, not_false_iff, and_self, ite_true, if_pos, htc, hb,
        ite_false, if_neg]
      rfl
    have hnp : notePathOf s note.filename folder
        = resolveTargetDir (getNotesDirectory s) folder ++ note.filename ++ ".md" := by
      unfold notePathOf
      rw [if_neg hb]
    have hnpo : notePathOf sE old folder
        = notePathOf s old folder := notePathOf_eq old folder hEcustom hEnotesDir
    have hwf : writeFailsOf s folder = s.fs.failWrites := by
      unfold writeFailsOf targetIsSaf
      rw [if_neg hb]
    have hfsfw : sD.fs.failWrites = s.fs.failWrites := by
      rw [hDfs, hfw, hEfsfw]
    by_cases hw2 : (resolveTargetDir (getNotesDirectory s) folder ++
        note.filename ++ ".md") ∈ s.fs.failWrites
    · have hwr : saveNote note (some old) folder s =
          (Except.error "EIO: write failed",
            { sD with trace := sD.trace ++ [Event.writeF (resolveTargetDir
                (getNotesDirectory s) folder ++ note.filename ++ ".md")] }) := by
        have hcond : sD.fs.failWrites.contains (resolveTargetDir (getNotesDirectory s)
            folder ++ note.filename ++ ".md") = true := by
          rw [hfsfw]
          simpa using hw2
        rw [hrun]
        simp only [writeAsStringAsync, bindM, bind_run, pure_run, getS, traceEv, modifyS, throwM]
        simp only [hcond, ite_true, if_pos]
        rfl
      rw [hwr, hnp, hwf]
      refine ⟨⟨tE ++ [Event.deleteF (notePathOf s old folder)], ?_, by simp⟩, ?_, ?_⟩
      · simp [hDtrace, hEtrace, hnpo, List.append_assoc]
      · simp [hw2]
      · intro hcon
        exact absurd hw2 hcon
    · have hwr : saveNote note (some old) folder s =
          (Except.ok (), clearCacheFn
            { sD with
              fs := { sD.fs with
                      files := aset (resolveTargetDir (getNotesDirectory s) folder
                        ++ note.filename ++ ".md") (note.content, sD.now) sD.fs.files,
                      listings := addNameToListings (resolveTargetDir (getNotesDirectory s)
                        folder ++ note.filename ++ ".md") sD.fs.listings },
              trace := sD.trace ++ [Event.writeF (resolveTargetDir
                (getNotesDirectory s) folder ++ note.filename ++ ".md")] }) := by
        have hcond : sD.fs.failWrites.contains (resolveTargetDir (getNotesDirectory s)
            folder ++ note.filename ++ ".md") = false := by
          rw [hfsfw]
          simpa using hw2
        rw [hrun]
        simp only [writeAsStringAsync, bindM, bind_run, pure_run, getS, traceEv, modifyS, throwM]
        simp only [hcond, ite_false, if_neg, Bool.false_eq_true, not_false_iff]
        rfl
      rw [hwr, hnp, hwf]
      refine ⟨⟨tE ++ [Event.deleteF (notePathOf s old folder)], ?_, by simp⟩, ?_, ?_⟩
      · simp [clearCacheFn, hDtrace, hEtrace, hnpo, List.append_assoc]
      · simp [hw2]
      · intro _
        refine ⟨rfl, rfl, rfl, ?_⟩
        have hsafT : targetIsSaf (clearCacheFn
            { sD with
              fs := { sD.fs with
                      files := aset (resolveTargetDir (getNotesDirectory s) folder
                        ++ note.filename ++ ".md") (note.content, sD.now) sD.fs.files,
                      listings := addNameToListings (resolveTargetDir (getNotesDirectory s)
                        folder ++ note.filename ++ ".md") sD.fs.listings },
              trace := sD.trace ++ [Event.writeF (resolveTargetDir
                (getNotesDirectory s) folder ++ note.filename ++ ".md")] }) folder
            = targetIsSaf s folder := by
          refine targetIsSaf_eq folder ?_ ?_
          · show sD.customDirectory = s.customDirectory
            rw [hDcustom, hEcustom]
          · show sD.notesDirectory = s.notesDirectory
            rw [hDnotesDir, hEnotesDir]
        unfold storedContentAt
        rw [hsafT]
        unfold targetIsSaf
        rw [if_neg hb]
        show (alookup _ (aset _ (note.content, sD.now) sD.fs.files)).map Prod.fst
          = some note.content
        rw [alookup_aset_self]
        rfl

/-- The per-file preview reader performs no directory-listing call and
touches nothing but the trace. -/
theorem fsPreviewReader_quiet (dir file : String) (s : ServiceState) :
    ∃ v t, fsPreviewReader dir file s = (Except.ok v, { s with trace := s.trace ++ t }) ∧
      ∀ e ∈ t, isListEv e = false := by
  cases hf : alookup (dir ++ file) s.fs.files with
  | some cm =>
      refine ⟨some (NotePreview.mk (stripMd file) (jsTake cm.1 200) cm.2 cm.2 (dir ++ file)),
        [Event.readF (dir ++ file), Event.statF (dir ++ file)], ?_, ?_⟩
      · simp [fsPreviewReader, tryCatchM, bind_run, pure_run, getS, readAsStringAsync,
          getInfoAsync, traceEv, modifyS, throwM, hf]
      · intro e he
        simp at he
        rcases he with he | he <;> subst he <;> rfl
  | none =>
      refine ⟨none, [Event.readF (dir ++ file)], ?_, ?_⟩
      · simp [fsPreviewReader, tryCatchM, bind_run, pure_run, getS, readAsStringAsync,
          getInfoAsync, traceEv, modifyS, throwM, hf]
      · intro e he
        simp at he
        subst he
        rfl

/-- Mapping the preview reader over a file list performs no listing call and
touches nothing but the trace. -/
theorem mapM_fsPreview_quiet (dir : String) (files : List String) :
    ∀ s : ServiceState, ∃ vs t,
      mapM' (fsPreviewReader dir) files s = (Except.ok vs, { s with trace := s.trace ++ t }) ∧
      ∀ e ∈ t, isListEv e = false := by
  induction files with
  | nil =>
      intro s
      exact ⟨[], [], by simp [mapM', pure_run], by simp⟩
  | cons f rest ih =>
      intro s
      obtain ⟨v, t1, hf, ht1⟩ := fsPreviewReader_quiet dir f s
      obtain ⟨vs, t2, hrest, ht2⟩ := ih { s with trace := s.trace ++ t1 }
      refine ⟨v :: vs, t1 ++ t2, ?_, ?_⟩
      · simp only [mapM', bind_run, pure_run, hf, hrest]
        simp [List.append_assoc]
      · intro e he
        simp at he
        rcases he with he | he
        · exact ht1 e he
        · exact ht2 e he


/-- `ensureDirectoryExists` is a pure stat when the path-backend root
already exists as a directory. -/
theorem ensure_noop (s : ServiceState) (hplat : ¬ s.platform = Plat.web)
    (hroot : ¬ jsStartsWith (getNotesDirectory s) "content://" = true)
    (hnf : alookup (getNotesDirectory s) s.fs.files = none)
    (hdp : (alookup (getNotesDirectory s) s.fs.dirPaths).isSome = true) :
    ensureDirectoryExists s =
      (Except.ok (), { s with trace := s.trace ++ [Event.statF (getNotesDirectory s)] }) := by
  obtain ⟨m, hm⟩ := Option.isSome_iff_exists.mp hdp
  simp [ensureDirectoryExists, bind_run, pure_run, getS, getInfoAsync, traceEv, modifyS,
    hplat, hroot, hnf, hm]

/-- Cache-hit branch of `getFileSystemNotes`: no backend call at all. -/
theorem getFileSystemNotes_cached (s : ServiceState) (dir : String)
    (hvalid : isCacheValid s = true)
    (hhit : (alookup ("notes_" ++ dir) s.notesCache).isSome = true) :
    getFileSystemNotes dir s =
      (Except.ok ((alookup ("notes_" ++ dir) s.notesCache).getD []), s) := by
  simp [getFileSystemNotes, bind_run, pure_run, getS, hvalid, hhit]

/-- Cache-miss branch of `getFileSystemNotes` with a live listing: exactly
one backend listing call, then quiet per-file reads, then a cache fill. -/
theorem getFileSystemNotes_fill (s : ServiceState) (dir : String) (names : List String)
    (hmiss : alookup ("notes_" ++ dir) s.notesCache = none)
    (hlist : alookup dir s.fs.listings = some names) :
    ∃ sorted t,
      getFileSystemNotes dir s =
        (Except.ok sorted,
          { s with notesCache := aset ("notes_" ++ dir) sorted s.notesCache,
                   lastCacheUpdate := s.now,
                   trace := s.trace ++ Event.listDir dir :: t }) ∧
      ∀ e ∈ t, isListEv e = false := by
  obtain ⟨vs, t, hmap, ht⟩ := mapM_fsPreview_quiet dir
    (names.filter (fun f => jsEndsWith f ".md"))
    { s with trace := s.trace ++ [Event.listDir dir] }
  refine ⟨sortBy previewLe (vs.filterMap id), t, ?_, ht⟩
  simp only [getFileSystemNotes, bind_run, pure_run, getS, tryCatchM,
    readDirectoryAsync, traceEv, modifyS, throwM, hmiss, Option.isSome_none,
    Bool.false_eq_true, and_false, if_false, ite_false]
  simp only [hlist, pure_run]
  rw [hmap]
  simp [List.append_assoc]


/-- Path-backend `getAllNotes` on a cache miss: one stat, one listing call,
quiet reads, cache fill. -/
theorem getAllNotes_path_fill (s : ServiceState) (names : List String)
    (hplat : ¬ s.platform = Plat.web)
    (hpref : s.directoryPreferenceCache = some none)
    (hroot : ¬ jsStartsWith (getNotesDirectory s) "content://" = true)
    (hnf : alookup (getNotesDirectory s) s.fs.files = none)
    (hdp : (alookup (getNotesDirectory s) s.fs.dirPaths).isSome = true)
    (hlist : alookup (getNotesDirectory s) s.fs.listings = some names)
    (hmiss : alookup ("notes_" ++ getNotesDirectory s) s.notesCache = none) :
    ∃ sorted t,
      getAllNotes s =
        (Except.ok sorted,
          { s with notesCache := aset ("notes_" ++ getNotesDirectory s) sorted s.notesCache,
                   lastCacheUpdate := s.now,
                   trace := s.trace ++ Event.statF (getNotesDirectory s) ::
                     Event.listDir (getNotesDirectory s) :: t }) ∧
      ∀ e ∈ t, isListEv e = false := by
  have hens := ensure_noop s hplat hroot hnf hdp
  generalize hS1 : ({ s with trace := s.trace ++ [Event.statF (getNotesDirectory s)] } :
    ServiceState) = S1 at hens
  have hS1nc : S1.notesCache = s.notesCache := by rw [← hS1]
  have hS1now : S1.now = s.now := by rw [← hS1]
  have hS1fs : S1.fs = s.fs := by rw [← hS1]
  have hS1tr : S1.trace = s.trace ++ [Event.statF (getNotesDirectory s)] := by rw [← hS1]
  have hS1gnd : getNotesDirectory S1 = getNotesDirectory s := by
    rw [← hS1]
    rfl
  obtain ⟨sorted, t, hfill, ht⟩ := getFileSystemNotes_fill S1 (getNotesDirectory s) names
    (by rw [hS1nc]; exact hmiss) (by rw [hS1fs]; exact hlist)
  refine ⟨sorted, t, ?_, ht⟩
  have hS1plat : ¬ S1.platform = Plat.web := by rw [← hS1]; exact hplat
  simp only [getAllNotes, bind_run, pure_run, getS, loadPref_cached_none s hpref, hens,
    hS1gnd, hplat, ite_false, if_neg, hroot]
  simp only [hS1plat, ite_false, if_neg, Bool.false_eq_true, not_false_iff, tryCatchM]
  rw [hfill]
  rw [← hS1]
  simp [List.append_assoc]

/-- Path-backend `getAllNotes` on a cache hit: only the root stat, no
listing call. -/
theorem getAllNotes_path_cached (s : ServiceState)
    (hplat : ¬ s.platform = Plat.web)
    (hpref : s.directoryPreferenceCache = some none)
    (hroot : ¬ jsStartsWith (getNotesDirectory s) "content://" = true)
    (hnf : alookup (getNotesDirectory s) s.fs.files = none)
    (hdp : (alookup (getNotesDirectory s) s.fs.dirPaths).isSome = true)
    (hvalid : isCacheValid s = true)
    (hhit : (alookup ("notes_" ++ getNotesDirectory s) s.notesCache).isSome = true) :
    getAllNotes s =
      (Except.ok ((alookup ("notes_" ++ getNotesDirectory s) s.notesCache).getD []),
        { s with trace := s.trace ++ [Event.statF (getNotesDirectory s)] }) := by
  have hens := ensure_noop s hplat hroot hnf hdp
  generalize hS1 : ({ s with trace := s.trace ++ [Event.statF (getNotesDirectory s)] } :
    ServiceState) = S1 at hens
  have hS1nc : S1.notesCache = s.notesCache := by rw [← hS1]
  have hS1valid : isCacheValid S1 = true := by rw [← hS1]; exact hvalid
  have hS1gnd : getNotesDirectory S1 = getNotesDirectory s := by
    rw [← hS1]
    rfl
  have hcached := getFileSystemNotes_cached S1 (getNotesDirectory s) hS1valid
    (by rw [hS1nc]; exact hhit)
  have hS1plat : ¬ S1.platform = Plat.web := by rw [← hS1]; exact hplat
  simp only [getAllNotes, bind_run, pure_run, getS, loadPref_cached_none s hpref, hens,
    hS1gnd, hplat, ite_false, if_neg, hroot]
  simp only [hS1plat, ite_false, if_neg, Bool.false_eq_true, not_false_iff, tryCatchM]
  rw [hcached, hS1nc]


/-- A fresh-filename `saveNote` at the path-backend root (no
previousFilename): stat, write, cache clear; no listing call. -/
theorem saveNote_new_path (s : ServiceState) (note : Note)
    (hplat : ¬ s.platform = Plat.web)
    (hroot : ¬ jsStartsWith (getNotesDirectory s) "content://" = true)
    (hnf : alookup (getNotesDirectory s) s.fs.files = none)
    (hdp : (alookup (getNotesDirectory s) s.fs.dirPaths).isSome = true)
    (hwok : s.fs.failWrites.contains (getNotesDirectory s ++ note.filename ++ ".md")
      = false) :
    saveNote note none none s =
      (Except.ok (), clearCacheFn
        { s with
          fs := { s.fs with
                  files := aset (getNotesDirectory s ++ note.filename ++ ".md")
                    (note.content, s.now) s.fs.files,
                  listings := addNameToListings
                    (getNotesDirectory s ++ note.filename ++ ".md") s.fs.listings },
          trace := s.trace ++ [Event.statF (getNotesDirectory s),
            Event.writeF (getNotesDirectory s ++ note.filename ++ ".md")] }) := by
  have hens := ensure_noop s hplat hroot hnf hdp
  generalize hS1 : ({ s with trace := s.trace ++ [Event.statF (getNotesDirectory s)] } :
    ServiceState) = S1 at hens
  have hS1gnd : getNotesDirectory S1 = getNotesDirectory s := by
    rw [← hS1]
    rfl
  have hS1plat : ¬ S1.platform = Plat.web := by rw [← hS1]; exact hplat
  have hS1fw : S1.fs.failWrites = s.fs.failWrites := by rw [← hS1]
  have hcond : S1.fs.failWrites.contains (getNotesDirectory s ++ note.filename ++ ".md")
      = false := by rw [hS1fw]; exact hwok
  simp only [saveNote, bind_run, pure_run, getS, hplat, ite_false, if_neg, hens,
    resolveTargetDir, hS1gnd, hroot, hS1plat, Bool.false_eq_true, not_false_iff,
    writeAsStringAsync, traceEv, modifyS, throwM, hcond, ite_true, if_pos]
  rw [← hS1]
  simp [List.append_assoc, clearCacheFn]

/-- A string is never equal to itself extended by a nonempty suffix. -/
theorem ne_self_append (a b : String) (hb : 0 < b.length) : a ≠ a ++ b := by
  intro h
  have hl := congrArg String.length h
  rw [String.length_append] at hl
  omega

/-- Lookup success is preserved by any map that keeps keys. -/
theorem alookup_isSome_map {α : Type} (g : String × α → String × α)
    (hg : ∀ x, (g x).1 = x.1) (k : String) (l : List (String × α)) :
    (alookup k (l.map g)).isSome = (alookup k l).isSome := by
  induction l with
  | nil => simp [alookup]
  | cons dl rest ih =>
      simp only [List.map, alookup, hg dl]
      by_cases hk : dl.1 = k
      · simp [hk]
      · simp [hk, ih]

/-- `addNameToListings` preserves which directories have a listing. -/
theorem alookup_addNames_isSome (p k : String) (ls : List (String × List String)) :
    (alookup k (addNameToListings p ls)).isSome = (alookup k ls).isSome := by
  unfold addNameToListings
  refine alookup_isSome_map _ ?_ k ls
  intro x
  dsimp only
  split
  · rfl
  · rfl

/-- Claim C2 (corrected): the TTL cache lives on the `getAllNotes` notes
listing, not on `getDirectoryContents`.  A first `getAllNotes` issues one
backend listing; a second call within the TTL with no mutation in between
issues none; a `saveNote` in between forces the next `getAllNotes` to hit
the backend listing again. -/
theorem getAllNotes_cache_ttl (s : ServiceState) (note : Note) (names : List String)
    (hplat : ¬ s.platform = Plat.web)
    (hpref : s.directoryPreferenceCache = some none)
    (hroot : ¬ jsStartsWith (getNotesDirectory s) "content://" = true)
    (hnf : alookup (getNotesDirectory s) s.fs.files = none)
    (hdp : (alookup (getNotesDirectory s) s.fs.dirPaths).isSome = true)
    (hlist : alookup (getNotesDirectory s) s.fs.listings = some names)
    (hmiss : alookup ("notes_" ++ getNotesDirectory s) s.notesCache = none)
    (hwok : s.fs.failWrites.contains (getNotesDirectory s ++ note.filename ++ ".md")
      = false) :
    listCalls (getAllNotes s).2 = listCalls s + 1 ∧
    listCalls (getAllNotes (getAllNotes s).2).2 = listCalls (getAllNotes s).2 ∧
    listCalls (getAllNotes (saveNote note none none
        (getAllNotes (getAllNotes s).2).2).2).2
      = listCalls (saveNote note none none (getAllNotes (getAllNotes s).2).2).2 + 1 := by
  obtain ⟨sorted, t, h1, ht⟩ :=
    getAllNotes_path_fill s names hplat hpref hroot hnf hdp hlist hmiss
  have htn : t.filter isListEv = [] :=
    List.filter_eq_nil_iff.mpr (fun a ha => by simp [ht a ha])
  simp only [h1]
  generalize hT1 : ({ s with
      notesCache := aset ("notes_" ++ getNotesDirectory s) sorted s.notesCache,
      lastCacheUpdate := s.now,
      trace := s.trace ++ Event.statF (getNotesDirectory s) ::
        Event.listDir (getNotesDirectory s) :: t } : ServiceState) = T1
  have hc1 : listCalls T1 = listCalls s + 1 := by
    rw [← hT1]
    simp [listCalls, List.filter_append, isListEv, htn]
  have hplat1 : ¬ T1.platform = Plat.web := by rw [← hT1]; exact hplat
  have hpref1 : T1.directoryPreferenceCache = some none := by rw [← hT1]; exact hpref
  have hgnd1 : getNotesDirectory T1 = getNotesDirectory s := by rw [← hT1]; rfl
  have hT1fs : T1.fs = s.fs := by rw [← hT1]
  have hT1nc : T1.notesCache
      = aset ("notes_" ++ getNotesDirectory s) sorted s.notesCache := by rw [← hT1]
  have hT1now : T1.now = s.now := by rw [← hT1]
  have hroot1 : ¬ jsStartsWith (getNotesDirectory T1) "content://" = true := by
    rw [hgnd1]; exact hroot
  have hnf1 : alookup (getNotesDirectory T1) T1.fs.files = none := by
    rw [hgnd1, hT1fs]; exact hnf
  have hdp1 : (alookup (getNotesDirectory T1) T1.fs.dirPaths).isSome = true := by
    rw [hgnd1, hT1fs]; exact hdp
  have hvalid1 : isCacheValid T1 = true := by
    rw [← hT1]
    simp [isCacheValid, cacheValidityDuration]
  have hhit1 : (alookup ("notes_" ++ getNotesDirectory T1) T1.notesCache).isSome
      = true := by
    rw [hgnd1, hT1nc, alookup_aset_self]
    rfl
  have h2 := getAllNotes_path_cached T1 hplat1 hpref1 hroot1 hnf1 hdp1 hvalid1 hhit1
  simp only [h2]
  generalize hT2 : ({ T1 with
      trace := T1.trace ++ [Event.statF (getNotesDirectory T1)] } : ServiceState) = T2
  have hc2 : listCalls T2 = listCalls T1 := by
    rw [← hT2]
    simp [listCalls, List.filter_append, isListEv]
  have hplat2 : ¬ T2.platform = Plat.web := by rw [← hT2]; exact hplat1
  have hpref2 : T2.directoryPreferenceCache = some none := by rw [← hT2]; exact hpref1
  have hgnd2 : getNotesDirectory T2 = getNotesDirectory s := by rw [← hT2]; exact hgnd1
  have hT2fs : T2.fs = s.fs := by rw [← hT2]; exact hT1fs
  have hT2now : T2.now = s.now := by rw [← hT2]; exact hT1now
  have hroot2 : ¬ jsStartsWith (getNotesDirectory T2) "content://" = true := by
    rw [hgnd2]; exact hroot
  have hnf2 : alookup (getNotesDirectory T2) T2.fs.files = none := by
    rw [hgnd2, hT2fs]; exact hnf
  have hdp2 : (alookup (getNotesDirectory T2) T2.fs.dirPaths).isSome = true := by
    rw [hgnd2, hT2fs]; exact hdp
  have hwok2 : T2.fs.failWrites.contains
      (getNotesDirectory T2 ++ note.filename ++ ".md") = false := by
    rw [hgnd2, hT2fs]; exact hwok
  have h3 := saveNote_new_path T2 note hplat2 hroot2 hnf2 hdp2 hwok2
  simp only [h3]
  generalize hT3 : (clearCacheFn { T2 with
      fs := { T2.fs with
              files := aset (getNotesDirectory T2 ++ note.filename ++ ".md")
                (note.content, T2.now) T2.fs.files,
              listings := addNameToListings
                (getNotesDirectory T2 ++ note.filename ++ ".md") T2.fs.listings },
      trace := T2.trace ++ [Event.statF (getNotesDirectory T2),
        Event.writeF (getNotesDirectory T2 ++ note.filename ++ ".md")] }) = T3
  have hplat3 : ¬ T3.platform = Plat.web := by rw [← hT3]; exact hplat2
  have hpref3 : T3.directoryPreferenceCache = some none := by rw [← hT3]; exact hpref2
  have hgnd3 : getNotesDirectory T3 = getNotesDirectory s := by rw [← hT3]; exact hgnd2
  have hT3files : T3.fs.files = aset (getNotesDirectory T2 ++ note.filename ++ ".md")
      (note.content, T2.now) T2.fs.files := by rw [← hT3]; rfl
  have hT3dp : T3.fs.dirPaths = T2.fs.dirPaths := by rw [← hT3]; rfl
  have hT3ls : T3.fs.listings = addNameToListings
      (getNotesDirectory T2 ++ note.filename ++ ".md") T2.fs.listings := by
    rw [← hT3]; rfl
  have hT3nc : T3.notesCache = [] := by rw [← hT3]; rfl
  have hpathne : getNotesDirectory s ≠ getNotesDirectory s ++ note.filename ++ ".md" := by
    rw [String.append_assoc]
    refine ne_self_append _ _ ?_
    rw [String.length_append]
    have hmd : (".md" : String).length = 3 := rfl
    omega
  have hroot3 : ¬ jsStartsWith (getNotesDirectory T3) "content://" = true := by
    rw [hgnd3]; exact hroot
  have hnf3 : alookup (getNotesDirectory T3) T3.fs.files = none := by
    rw [hgnd3, hT3files, hgnd2, hT2fs]
    rw [alookup_aset_ne _ _ _ _ hpathne]
    exact hnf
  have hdp3 : (alookup (getNotesDirectory T3) T3.fs.dirPaths).isSome = true := by
    rw [hgnd3, hT3dp, hT2fs]; exact hdp
  have hlist3 : ∃ names3, alookup (getNotesDirectory T3) T3.fs.listings = some names3 := by
    rw [hgnd3, hT3ls, hT2fs]
    have hsome : (alookup (getNotesDirectory s) (addNameToListings
        (getNotesDirectory T2 ++ note.filename ++ ".md") s.fs.listings)).isSome = true := by
      rw [alookup_addNames_isSome, hlist]
      rfl
    exact Option.isSome_iff_exists.mp hsome
  obtain ⟨names3, hlist3⟩ := hlist3
  have hmiss3 : alookup ("notes_" ++ getNotesDirectory T3) T3.notesCache = none := by
    rw [hT3nc]
    simp [alookup]
  have hfin := getAllNotes_path_fill T3 names3 hplat3 hpref3 hroot3 hnf3 hdp3 hlist3 hmiss3
  obtain ⟨sorted4, t4, h4, ht4⟩ := hfin
  have htn4 : t4.filter isListEv = [] :=
    List.filter_eq_nil_iff.mpr (fun a ha => by simp [ht4 a ha])
  simp only [h4]
  refine ⟨hc1, hc2, ?_⟩
  simp [listCalls, List.filter_append, isListEv, htn4]

/-- Claim C3 (corrected): deleting a nonexistent note on the path-based
backend raises — the backend delete is issued without the idempotent option —
and a genuine injected backend delete failure raises as well. -/
theorem deleteNote_missing_raises (s : ServiceState) (f : String) (folder : Option String)
    (hplat : ¬ s.platform = Plat.web)
    (hsaf : ¬ jsStartsWith (resolveTargetDir (getNotesDirectory s) folder) "content://"
      = true)
    (hmiss : alookup (resolveTargetDir (getNotesDirectory s) folder ++ f ++ ".md")
        s.fs.files = none ∨
      (resolveTargetDir (getNotesDirectory s) folder ++ f ++ ".md") ∈ s.fs.failDeletes) :
    ∃ e, (deleteNote f folder s).1 = Except.error e := by
  by_cases hfd : (resolveTargetDir (getNotesDirectory s) folder ++ f ++ ".md")
      ∈ s.fs.failDeletes
  · refine ⟨"EPERM: delete failed", ?_⟩
    simp [deleteNote, hplat, hsaf, hfd, bind_run, pure_run, getS, modifyS, traceEv,
      deleteAsync, throwM]
  · have hm : alookup (resolveTargetDir (getNotesDirectory s) folder ++ f ++ ".md")
        s.fs.files = none := by
      rcases hmiss with hm | hm
      · exact hm
      · exact absurd hm hfd
    refine ⟨"ENOENT: file not found", ?_⟩
    simp [deleteNote, hplat, hsaf, hfd, hm, bind_run, pure_run, getS, modifyS, traceEv,
      deleteAsync, throwM]

/-- A try/catch whose handler returns a constant never raises. -/
theorem tryCatch_const_ok {α : Type} (x : M α) (c : α) (st : ServiceState) :
    ∃ a s', tryCatchM x (fun _ => pure c) st = (Except.ok a, s') := by
  unfold tryCatchM
  cases hx : x st with
  | mk r s2 =>
      cases r with
      | ok a => exact ⟨a, s2, rfl⟩
      | error e => exact ⟨c, s2, rfl⟩

/-- A missing path-backend directory degrades the listing to the empty
DirectoryContents for that target. -/
theorem gfsdc_missing (st : ServiceState) (dir root : String)
    (h : alookup dir st.fs.listings = none) :
    getFileSystemDirectoryContents dir root st =
      (Except.ok (buildEmptyDirectoryContents dir root),
        { st with trace := st.trace ++ [Event.listDir dir] }) := by
  simp [getFileSystemDirectoryContents, tryCatchM, bind_run, pure_run, getS,
    readDirectoryAsync, traceEv, modifyS, throwM, h]

/-- `getDirectoryContents` never raises. -/
theorem getDirectoryContents_total (s : ServiceState) (dp : Option String) :
    ∃ c s', getDirectoryContents dp s = (Except.ok c, s') := by
  generalize htgt : (match dp with
    | some p => if p ≠ "" then p else getCurrentDirectory s
    | none => getCurrentDirectory s) = tgt
  have h1' := pair_split (loadDirectoryPreference s) (loadPref_ok s)
  generalize hS1 : (loadDirectoryPreference s).2 = S1 at h1'
  obtain ⟨dpp, ls, tE, hens, -, -, -⟩ := ensure_spec S1
  generalize hS2 : ({ S1 with
      fs := { S1.fs with dirPaths := dpp, listings := ls },
      trace := S1.trace ++ tE } : ServiceState) = S2 at hens
  by_cases hw : S2.platform = Plat.web
  · refine ⟨getWebDirectoryContents S2.web tgt, S2, ?_⟩
    simp only [getDirectoryContents, bind_run, pure_run, getS, htgt, h1', hens, hw,
      ite_true, if_pos]
  · obtain ⟨a, s', htc⟩ := tryCatch_const_ok
      (if jsStartsWith tgt "content://" = true then
        getSAFDirectoryContents tgt (getNotesDirectory s)
       else getFileSystemDirectoryContents tgt (getNotesDirectory s))
      (⟨[], [], tgt, getParentPath tgt (getNotesDirectory s)⟩ : DirectoryContents) S2
    refine ⟨a, s', ?_⟩
    simp only [getDirectoryContents, bind_run, pure_run, getS, htgt, h1', hens, hw,
      ite_false, if_neg, htc]


/-- Listing a missing path-backend directory yields the empty
DirectoryContents with `currentPath` set and `parentPath` computed. -/
theorem getDirectoryContents_missing (s : ServiceState) (target : String)
    (hplat : ¬ s.platform = Plat.web)
    (hpref : s.directoryPreferenceCache = some none)
    (htne : target ≠ "")
    (hsaf : ¬ jsStartsWith target "content://" = true)
    (hne : target ≠ getNotesDirectory s)
    (hmiss : alookup target s.fs.listings = none) :
    (getDirectoryContents (some target) s).1 =
      Except.ok ⟨[], [], target, getParentPath target (getNotesDirectory s)⟩ := by
  have h1' := loadPref_cached_none s hpref
  obtain ⟨dpp, ls, tE, hens, -, hlsne, -⟩ := ensure_spec s
  generalize hS2 : ({ s with
      fs := { s.fs with dirPaths := dpp, listings := ls },
      trace := s.trace ++ tE } : ServiceState) = S2 at hens
  have hS2plat : ¬ S2.platform = Plat.web := by rw [← hS2]; exact hplat
  have hS2miss : alookup target S2.fs.listings = none := by
    have hls : S2.fs.listings = ls := by rw [← hS2]
    rw [hls, hlsne target hne]
    exact hmiss
  have hg := gfsdc_missing S2 target (getNotesDirectory s) hS2miss
  simp only [getDirectoryContents, bind_run, pure_run, getS, h1', hens, hS2plat,
    ite_false, if_neg, htne, ne_eq, not_false_iff, ite_true, if_pos, hsaf, tryCatchM]
  simp only [Bool.false_eq_true, ite_false, if_neg, not_false_iff]
  rw [hg]
  rfl

/-- `getNote` never raises. -/
theorem getNote_total (s : ServiceState) (f : String) (p : Option String) :
    ∃ r s', getNote f p s = (Except.ok r, s') := by
  by_cases hw : s.platform = Plat.web
  · exact ⟨getWebNote s.web f, s,
      by simp only [getNote, bind_run, pure_run, getS, hw, ite_true, if_pos]⟩
  · generalize hkey : ("note_" ++ f ++ "_" ++ (match p with
      | some q => if q ≠ "" then q else "root"
      | none => "root")) = key
    by_cases hc : isCacheValid s = true ∧ (alookup key s.noteContentCache).isSome = true
    · refine ⟨alookup key s.noteContentCache, s, ?_⟩
      simp only [getNote, bind_run, pure_run, getS, hw, ite_false, if_neg, hkey, hc,
        and_self, ite_true, if_pos]
    · have hgoal : ∃ r s', getNote f p s = (Except.ok r, s') := by
        simp only [getNote, bind_run, pure_run, getS, hw, ite_false, if_neg, hkey, hc]
        exact tryCatch_const_ok _ none s
      exact hgoal


/-- A failed path-backend read (missing file) makes `getNote` return null,
not an exception. -/
theorem getNote_missing (s : ServiceState) (f : String) (p : Option String)
    (hplat : ¬ s.platform = Plat.web)
    (hncc : s.noteContentCache = [])
    (hsaf : ¬ jsStartsWith (resolveTargetDir (getNotesDirectory s) p) "content://" = true)
    (hfile : alookup (resolveTargetDir (getNotesDirectory s) p ++ f ++ ".md")
      s.fs.files = none) :
    (getNote f p s).1 = Except.ok none := by
  simp only [getNote, bind_run, pure_run, getS, hplat, ite_false, if_neg, hncc, alookup,
    Option.isSome_none, Bool.false_eq_true, and_false, tryCatchM, hsaf,
    readAsStringAsync, traceEv, modifyS, throwM, hfile, not_false_iff]

/-- On the non-web backends a note built by `getNote` always carries
`createdAt = updatedAt` (both come from the same modification time). -/
theorem getNote_created_eq_updated (s : ServiceState) (f : String) (p : Option String)
    (hplat : ¬ s.platform = Plat.web)
    (hncc : s.noteContentCache = []) :
    ∀ n : Note, (getNote f p s).1 = Except.ok (some n) → n.createdAt = n.updatedAt := by
  intro n h
  simp only [getNote, bind_run, pure_run, getS, hplat, ite_false, if_neg, hncc, alookup,
    Option.isSome_none, Bool.false_eq_true, and_false, tryCatchM, not_false_iff] at h
  by_cases hsafb : jsStartsWith (resolveTargetDir (getNotesDirectory s) p) "content://"
      = true
  · simp only [hsafb, ite_true, if_pos, safReadFile, safStat, bind_run, pure_run, getS,
      traceEv, modifyS, throwM] at h
    cases hct : alookup (resolveTargetDir (getNotesDirectory s) p ++ "/" ++ f ++ ".md")
        s.saf.contents with
    | none => simp [hct, throwM, pure_run, bind_run, getS, traceEv, modifyS] at h
    | some c =>
        simp only [hct, pure_run, bind_run, getS, traceEv, modifyS, throwM] at h
        cases hst : alookup (resolveTargetDir (getNotesDirectory s) p ++ "/" ++ f ++ ".md")
            s.saf.stats with
        | none => simp [hst, throwM, pure_run, bind_run, getS, traceEv, modifyS] at h
        | some m =>
            simp only [hst, pure_run, bind_run, getS, traceEv, modifyS, throwM] at h
            have hn := Option.some.inj (Except.ok.inj h)
            subst hn
            rfl
  · simp only [hsafb, ite_false, if_neg, readAsStringAsync, getInfoAsync, bind_run,
      pure_run, getS, traceEv, modifyS, throwM, Bool.false_eq_true, not_false_iff] at h
    cases hft : alookup (resolveTargetDir (getNotesDirectory s) p ++ f ++ ".md")
        s.fs.files with
    | none => simp [hft, throwM, pure_run, bind_run, getS, traceEv, modifyS] at h
    | some cm =>
        simp only [hft, pure_run, bind_run, getS, traceEv, modifyS, throwM] at h
        have hn := Option.some.inj (Except.ok.inj h)
        subst hn
        rfl

/-- On the flat-store backend, saving stamps `updatedAt` with the wall clock
and stores `createdAt` from the caller's note object. -/
theorem saveWebNote_timestamps (s : ServiceState) (note : Note)
    (hplat : s.platform = Plat.web) :
    webFind ((saveNote note none none s).2.web) note.filename
      = some ⟨none, note.filename, note.content, note.createdAt, s.now, note.filePath⟩ := by
  simp only [saveNote, saveWebNote, bind_run, pure_run, getS, hplat, ite_true, if_pos,
    modifyS]
  exact webFind_webUpsert _ s.web

/-- The SAF partition, characterized by filters: folders are exactly the
non-hidden directories, and the Markdown partition keeps every other entry
whose name ends in `.md` — hidden files included. -/
theorem separate_char (files : List SAFFile) :
    separateFoldersAndMarkdownFiles files =
      ((files.filter (fun f => f.isDir && !(jsStartsWith f.name "."))).map
        (fun f => ⟨f.name, f.uri, f.lastModified, f.lastModified⟩),
       files.filter (fun f =>
         !(f.isDir && !(jsStartsWith f.name ".")) && jsEndsWith f.name ".md")) := by
  induction files with
  | nil => rfl
  | cons f rest ih =>
      by_cases h1 : f.isDir = true ∧ ¬ jsStartsWith f.name "." = true
      · simp [separateFoldersAndMarkdownFiles, ih, h1, List.filter, h1.1, h1.2]
      · by_cases h2 : jsEndsWith f.name ".md" = true
        · simp [separateFoldersAndMarkdownFiles, ih, h1, h2, List.filter]
          simp at h1
          rcases Decidable.em (f.isDir = true) with hd | hd
          · simp [hd, h1 hd]
          · simp [hd]
        · simp [separateFoldersAndMarkdownFiles, ih, h1, h2, List.filter]
          simp at h1
          rcases Decidable.em (f.isDir = true) with hd | hd
          · simp [hd, h1 hd]
          · simp [hd]

/-- The probe runs no I/O beyond one stat and returns `probePure`. -/
theorem probe_spec (dir file : String) (s : ServiceState) :
    ∃ t, probeFolder dir file s =
      (Except.ok (probePure s.fs dir file), { s with trace := s.trace ++ t }) := by
  by_cases hh : jsStartsWith file "." = true
  · refine ⟨[], ?_⟩
    simp [probeFolder, probePure, tryCatchM, bind_run, pure_run, getS, hh]
  · refine ⟨[Event.statF (dir ++ file)], ?_⟩
    cases hf : alookup (dir ++ file) s.fs.files with
    | some cm =>
        simp [probeFolder, probePure, tryCatchM, bind_run, pure_run, getS, getInfoAsync,
          traceEv, modifyS, hh, hf]
    | none =>
        cases hd : alookup (dir ++ file) s.fs.dirPaths with
        | some m =>
            simp [probeFolder, probePure, tryCatchM, bind_run, pure_run, getS,
              getInfoAsync, traceEv, modifyS, hh, hf, hd]
        | none =>
            cases hd2 : alookup (dir ++ file ++ "/") s.fs.dirPaths with
            | some m =>
                simp [probeFolder, probePure, tryCatchM, bind_run, pure_run, getS,
                  getInfoAsync, traceEv, modifyS, hh, hf, hd, hd2]
            | none =>
                simp [probeFolder, probePure, tryCatchM, bind_run, pure_run, getS,
                  getInfoAsync, traceEv, modifyS, hh, hf, hd, hd2]

/-- Folder probing maps `probePure` over the names, trace aside. -/
theorem mapM_probe (dir : String) (files : List String) :
    ∀ s : ServiceState, ∃ t,
      mapM' (probeFolder dir) files s =
        (Except.ok (files.map (probePure s.fs dir)), { s with trace := s.trace ++ t }) := by
  induction files with
  | nil =>
      intro s
      exact ⟨[], by simp [mapM', pure_run]⟩
  | cons f rest ih =>
      intro s
      obtain ⟨t1, hf⟩ := probe_spec dir f s
      obtain ⟨t2, hrest⟩ := ih { s with trace := s.trace ++ t1 }
      refine ⟨t1 ++ t2, ?_⟩
      simp only [mapM', bind_run, pure_run, hf, hrest]
      simp [List.append_assoc]

/-- `processRegularFiles`, characterized: the Markdown partition is the
`.md`-suffix filter of the names (hidden or not), and the folder partition
is the probe of every non-`.md` name. -/
theorem processRegularFiles_spec (files : List String) (dir : String) (s : ServiceState) :
    ((processRegularFiles files dir) s).1 =
      Except.ok
        (((files.filter (fun f => !(jsEndsWith f ".md"))).map (probePure s.fs dir)).filterMap id,
         files.filter (fun f => jsEndsWith f ".md")) := by
  obtain ⟨t, hmap⟩ := mapM_probe dir (files.filter (fun f => !(jsEndsWith f ".md"))) s
  simp [processRegularFiles, bind_run, pure_run, hmap]

/-- No collision: the sanitized base itself is returned. -/
theorem uniqLoop_free (base : String) (existing : List String)
    (h0 : existing.contains base = false) :
    uniqLoop base existing none base 1 (existing.length + 2) = base := by
  have h0' : ¬ base ∈ existing := by simpa using h0
  simp [uniqLoop, h0']

/-- One collision: the loop appends `" 1"` and stops. -/
theorem uniqLoop_one (base : String) (existing : List String)
    (h1 : existing.contains base = true)
    (h2 : existing.contains (base ++ " 1") = false) :
    uniqLoop base existing none base 1 (existing.length + 2) = base ++ " 1" := by
  have ht1 : (toString (1 : Nat)) = "1" := rfl
  have hconc : base ++ " " ++ toString (1 : Nat) = base ++ " 1" := by
    rw [ht1, String.append_assoc]
    rfl
  have h1' : base ∈ existing := by simpa using h1
  have h2' : ¬ (base ++ " 1") ∈ existing := by simpa using h2
  rw [show existing.length + 2 = (existing.length + 1) + 1 from rfl]
  simp [uniqLoop, h1', h2', hconc]

/-! ## Claim theorems, counterexamples and witnesses -/

/-- Claim C1 (code bug): on the flat-store backend the save/read round trip
is broken — `saveWebNote` stores the note keyed by `filename`, but
`getWebNote` scans for a matching `id`, a field no stored runtime note has,
so reading back a freshly saved note returns null instead of its content. -/
theorem roundtrip_web_returns_null :
    ((do saveNote ⟨"a", "hello", 5, 5, ""⟩ none none
         getNote "a" none : M (Option Note)) webState).1 = Except.ok none := by
  decide

/-- Claim C2 (counterexample): two consecutive `getDirectoryContents` calls
for the same locator, inside the TTL window, with no mutation in between,
each issue a backend listing call — there is no DirectoryContents cache. -/
theorem directoryContents_lists_twice :
    listCalls (getDirectoryContents none dirState).2 = 1 ∧
    listCalls (getDirectoryContents none (getDirectoryContents none dirState).2).2 = 2 := by
  decide

/-- Claim C2 (witness): the amended cache behavior at a concrete state. -/
theorem getAllNotes_cache_ttl_witness :
    listCalls (getAllNotes dirState).2 = listCalls dirState + 1 ∧
    listCalls (getAllNotes (getAllNotes dirState).2).2 = listCalls (getAllNotes dirState).2 ∧
    listCalls (getAllNotes (saveNote ⟨"n", "c", 100, 100, ""⟩ none none
        (getAllNotes (getAllNotes dirState).2).2).2).2
      = listCalls (saveNote ⟨"n", "c", 100, 100, ""⟩ none none
          (getAllNotes (getAllNotes dirState).2).2).2 + 1 :=
  getAllNotes_cache_ttl dirState ⟨"n", "c", 100, 100, ""⟩ ["a.md", "b.txt", ".git"]
    (by decide) (by decide) (by decide) (by decide) (by decide) (by decide) (by decide)
    (by decide)

/-- Claim C3 (counterexample): deleting a note that does not exist on the
path-based backend raises instead of succeeding silently. -/
theorem deleteNote_nonexistent_raises_concrete :
    (deleteNote "ghost" none baseState).1 = Except.error "ENOENT: file not found" := by
  decide

/-- Claim C3 (witness): the amended behavior at a concrete state. -/
theorem deleteNote_missing_raises_witness :
    ∃ e, (deleteNote "ghost" none baseState).1 = Except.error e :=
  deleteNote_missing_raises baseState "ghost" none (by decide) (by decide)
    (Or.inl (by decide))

/-- Claim C4 (confirmed): `getDirectoryContents` never propagates an
exception; a missing path-backend target directory degrades to the empty
DirectoryContents with `currentPath` set and `parentPath` computed; and
`getNote` never propagates an exception and returns null when the
underlying read fails. -/
theorem listing_and_read_failures_degrade :
    (∀ (s : ServiceState) (dp : Option String),
      ∃ c s', getDirectoryContents dp s = (Except.ok c, s')) ∧
    (∀ (s : ServiceState) (target : String),
      ¬ s.platform = Plat.web →
      s.directoryPreferenceCache = some none →
      target ≠ "" →
      ¬ jsStartsWith target "content://" = true →
      target ≠ getNotesDirectory s →
      alookup target s.fs.listings = none →
      (getDirectoryContents (some target) s).1 =
        Except.ok ⟨[], [], target, getParentPath target (getNotesDirectory s)⟩) ∧
    (∀ (s : ServiceState) (f : String) (p : Option String),
      ∃ r s', getNote f p s = (Except.ok r, s')) ∧
    (∀ (s : ServiceState) (f : String) (p : Option String),
      ¬ s.platform = Plat.web →
      s.noteContentCache = [] →
      ¬ jsStartsWith (resolveTargetDir (getNotesDirectory s) p) "content://" = true →
      alookup (resolveTargetDir (getNotesDirectory s) p ++ f ++ ".md") s.fs.files = none →
      (getNote f p s).1 = Except.ok none) :=
  ⟨getDirectoryContents_total,
   fun s target h1 h2 h3 h4 h5 h6 => getDirectoryContents_missing s target h1 h2 h3 h4 h5 h6,
   getNote_total,
   fun s f p h1 h2 h3 h4 => getNote_missing s f p h1 h2 h3 h4⟩

/-- Claim C4 (witness): the degrade behavior at concrete states. -/
theorem listing_and_read_failures_degrade_witness :
    (getDirectoryContents (some "R/sub/") dirState).1 =
      Except.ok ⟨[], [], "R/sub/", getParentPath "R/sub/" (getNotesDirectory dirState)⟩ ∧
    (getNote "ghost" none baseState).1 = Except.ok none :=
  ⟨listing_and_read_failures_degrade.2.1 dirState "R/sub/" (by decide) (by decide)
      (by decide) (by decide) (by decide) (by decide),
   listing_and_read_failures_degrade.2.2.2 baseState "ghost" none (by decide) (by decide)
      (by decide) (by decide)⟩

/-- Claim C5 (counterexample): on the flat-store backend `saveNote` ignores
`previousFilename` entirely — no delete is attempted and the old entry is
retained next to the new one. -/
theorem saveNote_web_ignores_previous :
    (saveNote ⟨"New", "nc", 1, 1, ""⟩ (some "Old") none webOldState).2.web
      = [⟨none, "Old", "oc", 1, 1, ""⟩, ⟨none, "New", "nc", 1, 100, ""⟩] ∧
    (saveNote ⟨"New", "nc", 1, 1, ""⟩ (some "Old") none webOldState).2.trace.filter
      isDeleteEv = [] := by
  decide

/-- Claim C5 (witness): the rename semantics at a concrete state. -/
theorem saveNote_rename_witness :
    (∃ mid,
      ((saveNote ⟨"New", "nc", 1, 1, ""⟩ (some "Old") none) rnState).2.trace
          = rnState.trace ++ mid ++ [Event.writeF (notePathOf rnState "New" none)] ∧
      Event.deleteF (notePathOf rnState "Old" none) ∈ mid) ∧
    (((saveNote ⟨"New", "nc", 1, 1, ""⟩ (some "Old") none) rnState).1 = Except.ok () ↔
      ¬ (notePathOf rnState "New" none) ∈ writeFailsOf rnState none) ∧
    (¬ (notePathOf rnState "New" none) ∈ writeFailsOf rnState none →
      ((saveNote ⟨"New", "nc", 1, 1, ""⟩ (some "Old") none) rnState).2.notesCache = [] ∧
      ((saveNote ⟨"New", "nc", 1, 1, ""⟩ (some "Old") none) rnState).2.noteContentCache = [] ∧
      ((saveNote ⟨"New", "nc", 1, 1, ""⟩ (some "Old") none) rnState).2.lastCacheUpdate = 0 ∧
      storedContentAt ((saveNote ⟨"New", "nc", 1, 1, ""⟩ (some "Old") none) rnState).2
        (notePathOf rnState "New" none) none = some "nc") :=
  saveNote_rename rnState ⟨"New", "nc", 1, 1, ""⟩ "Old" none (by decide) (by decide)
    (by decide)

/-- Claim C6 (confirmed): listings partition entries so that folders are
exactly the non-hidden directories and the Markdown partition is exactly the
case-sensitive `.md`-suffix filter (hidden names excluded from the folder
partition only); on the concrete directory holding `a.md`, `b.txt` and the
hidden folder `.git`, the listing returns exactly one NotePreview `a` and no
folders. -/
theorem partition_md_and_hidden :
    (∀ files : List SAFFile,
      separateFoldersAndMarkdownFiles files =
        ((files.filter (fun f => f.isDir && !(jsStartsWith f.name "."))).map
          (fun f => ⟨f.name, f.uri, f.lastModified, f.lastModified⟩),
         files.filter (fun f =>
           !(f.isDir && !(jsStartsWith f.name ".")) && jsEndsWith f.name ".md"))) ∧
    (∀ (files : List String) (dir : String) (s : ServiceState),
      ((processRegularFiles files dir) s).1 =
        Except.ok
          (((files.filter (fun f => !(jsEndsWith f ".md"))).map
              (probePure s.fs dir)).filterMap id,
           files.filter (fun f => jsEndsWith f ".md"))) ∧
    (getDirectoryContents none dirState).1 =
      Except.ok ⟨[], [⟨"a", "hello", 7, 7, "R/a.md"⟩], "R/", none⟩ :=
  ⟨separate_char, fun files dir s => processRegularFiles_spec files dir s, by decide⟩

/-- Claim C7 (confirmed): a sanitized-title collision is resolved by
appending an incrementing numeric suffix — a free base is kept, a taken base
becomes `base 1` — and saving two notes titled `My Note` end to end yields
filenames `My Note` and `My Note 1`, both independently readable. -/
theorem unique_filename_suffix :
    (∀ (base : String) (existing : List String),
      existing.contains base = false →
      uniqLoop base existing none base 1 (existing.length + 2) = base) ∧
    (∀ (base : String) (existing : List String),
      existing.contains base = true →
      existing.contains (base ++ " 1") = false →
      uniqLoop base existing none base 1 (existing.length + 2) = base ++ " 1") ∧
    ((do
      let f1 ← generateUniqueFilenameM "My Note" none
      saveNote ⟨f1, "c1", 100, 100, ""⟩ none none
      let f2 ← generateUniqueFilenameM "My Note" none
      saveNote ⟨f2, "c2", 100, 100, ""⟩ none none
      let n1 ← getNote "My Note" none
      let n2 ← getNote "My Note 1" none
      pure (f1, f2, n1.map Note.content, n2.map Note.content) :
        M (String × String × Option String × Option String)) baseState).1
    = Except.ok ("My Note", "My Note 1", some "c1", some "c2") :=
  ⟨uniqLoop_free, uniqLoop_one, by decide⟩

/-- Claim C7 (witness): the collision step at concrete inputs. -/
theorem unique_filename_suffix_witness :
    uniqLoop "My Note" ["My Note"] none "My Note" 1 (["My Note"].length + 2)
      = "My Note" ++ " 1" :=
  unique_filename_suffix.2.1 "My Note" ["My Note"] (by decide) (by decide)

/-- Claim C8 (counterexample): after a second write at time 150 of a note
first written at time 100, `getNote` reports `createdAt = 150` — the
creation timestamp is not fixed at first write but tracks the file's
modification time. -/
theorem createdAt_not_fixed :
    ((do saveNote ⟨"a", "v1", 100, 100, ""⟩ none none
         modifyS (fun s => { s with now := 150 })
         saveNote ⟨"a", "v2", 100, 150, ""⟩ none none
         getNote "a" none : M (Option Note)) baseState).1
      = Except.ok (some ⟨"a", "v2", 150, 150, "R/a.md"⟩) ∧ (150 : Nat) ≠ 100 := by
  decide

/-- Claim C8 (corrected): on the path-based and document-provider backends a
note read by `getNote` always reports `createdAt = updatedAt` (both are the
file's last modification time, so later writes move both); on the flat-store
backend a save stamps `updatedAt` with the wall clock and stores `createdAt`
from the caller's note object. -/
theorem timestamps_track_mtime :
    (∀ (s : ServiceState) (f : String) (p : Option String),
      ¬ s.platform = Plat.web → s.noteContentCache = [] →
      ∀ n : Note, (getNote f p s).1 = Except.ok (some n) → n.createdAt = n.updatedAt) ∧
    (∀ (s : ServiceState) (note : Note), s.platform = Plat.web →
      webFind ((saveNote note none none s).2.web) note.filename
        = some ⟨none, note.filename, note.content, note.createdAt, s.now,
            note.filePath⟩) :=
  ⟨fun s f p h1 h2 => getNote_created_eq_updated s f p h1 h2,
   fun s note h => saveWebNote_timestamps s note h⟩

/-- Claim C8 (witness): both amended behaviors at concrete states. -/
theorem timestamps_track_mtime_witness :
    (⟨"a", "hello", 7, 7, "R/a.md"⟩ : Note).createdAt
        = (⟨"a", "hello", 7, 7, "R/a.md"⟩ : Note).updatedAt ∧
    webFind ((saveNote ⟨"w", "wc", 9, 9, "fp"⟩ none none webState).2.web) "w"
      = some ⟨none, "w", "wc", 9, 100, "fp"⟩ :=
  ⟨timestamps_track_mtime.1 dirState "a" none (by decide) (by decide)
      ⟨"a", "hello", 7, 7, "R/a.md"⟩ (by decide),
   timestamps_track_mtime.2 webState ⟨"w", "wc", 9, 9, "fp"⟩ rfl⟩

/-- Claim C9 (confirmed): the root-preference loader memoizes its first
outcome — the cache is populated after any first call, every repeated call
returns successfully, changes nothing, performs no storage read, and leaves
the effective root unchanged. -/
theorem loadDirectoryPreference_memoizes (s : ServiceState) :
    (loadDirectoryPreference s).1 = Except.ok () ∧
    (loadDirectoryPreference (loadDirectoryPreference s).2) =
      (Except.ok (), (loadDirectoryPreference s).2) ∧
    (loadDirectoryPreference s).2.directoryPreferenceCache ≠ none := by
  unfold loadDirectoryPreference
  cases hc : s.directoryPreferenceCache with
  | some cached =>
      cases cached with
      | some d => simp [hc, bind_run, pure_run, getS, modifyS, tryCatchM, traceEv,
          asyncGetItem]
      | none => simp [hc, bind_run, pure_run, getS, modifyS, tryCatchM, traceEv,
          asyncGetItem]
  | none =>
      by_cases hw : s.platform = Plat.web
      · simp [hc, hw, bind_run, pure_run, getS, modifyS, tryCatchM, traceEv,
          asyncGetItem]
      · by_cases hf : s.prefs.failGet
        · simp [hc, hw, hf, bind_run, pure_run, getS, modifyS, tryCatchM, traceEv,
            asyncGetItem, throwM]
        · cases hv : alookup "notes_directory_preference" s.prefs.items with
          | some dir =>
              by_cases hd : dir = ""
              · simp [hc, hw, hf, hv, hd, bind_run, pure_run, getS, modifyS, tryCatchM,
                  traceEv, asyncGetItem, throwM]
              · simp [hc, hw, hf, hv, hd, bind_run, pure_run, getS, modifyS, tryCatchM,
                  traceEv, asyncGetItem, throwM]
          | none =>
              simp [hc, hw, hf, hv, bind_run, pure_run, getS, modifyS, tryCatchM,
                traceEv, asyncGetItem, throwM]

/-- Claim C10 (confirmed): `deleteWebFolder` keeps exactly the stored notes
whose `filePath` does not start with the raw concatenated folder path — no
separator check — so deleting folder `Work` also removes a note stored under
the sibling folder `Work2`. -/
theorem deleteWebFolder_raw_startsWith :
    (∀ (folderName : String) (folderPath : Option String) (s : ServiceState)
        (n : WebNote),
      n ∈ ((deleteWebFolder folderName folderPath) s).2.web ↔
        n ∈ s.web ∧ ¬ jsStartsWith n.filePath
          (match folderPath with
           | some p => if p ≠ "" then p ++ "/" ++ folderName else folderName
           | none => folderName) = true) ∧
    (deleteWebFolder "Work" none
      { webState with web := [⟨none, "a", "ca", 1, 1, "Work/a.md"⟩,
                              ⟨none, "b", "cb", 2, 2, "Work2/b.md"⟩,
                              ⟨none, "c", "cc", 3, 3, "Home/c.md"⟩] }).2.web
      = [⟨none, "c", "cc", 3, 3, "Home/c.md"⟩] := by
  constructor
  · intro folderName folderPath s n
    simp [deleteWebFolder, modifyS, webFolderKeep, List.mem_filter]
  · decide

end LinkNotes
